import Mathlib

/-! # NsLauncher: version resolution and launch composition

A shallow embedding of `src/src/launcher.js` (class `MinecraftLauncher`).
Manifests are the parsed JSON documents the launcher reads; the file system
and Node's `path` module enter through an explicit environment record, the
network through a record of request outcomes. The download methods return
the values they pass to their progress callback; these are binary64 numbers,
computed with round-to-nearest-even.
-/

namespace NsLauncher

/-! ## Data model -/

/-- Parsed JSON values, used where the launcher handles a value generically
(the entries of a manifest's `arguments` object). -/
inductive Json where
  | null : Json
  | bool (b : Bool) : Json
  | num (n : Int) : Json
  | str (s : String) : Json
  | arr (items : List Json) : Json
  | obj (fields : List (String × Json)) : Json

/-- The `os` object of a library rule; only `os.name` is inspected. -/
structure OsConstraint where
  name : Option String

/-- One entry of `library.rules`. -/
structure Rule where
  action : String
  os : Option OsConstraint

/-- The object `library.downloads.artifact`. -/
structure Artifact where
  path : String
  url : String

/-- The object `library.downloads`. -/
structure Downloads where
  artifact : Option Artifact
  classifiers : Option (List (String × Artifact))

/-- One entry of a manifest's `libraries` array. -/
structure Library where
  name : String
  downloads : Option Downloads
  natives : Option (List (String × String))
  rules : Option (List Rule)

/-- An entry of the version catalog: a remote manifest entry or one built by
`getLocalVersions`. `isLocal` and `isFabric` are absent on remote entries. -/
structure CatalogEntry where
  id : String
  type : String
  releaseTime : String
  url : String
  isLocal : Option Bool
  isFabric : Option Bool

/-- The object `versionData.assetIndex`. -/
structure AssetIndexRef where
  id : Option String
  url : Option String

/-- A parsed version manifest (`<id>.json`), restricted to the fields the
launcher reads. The `arguments` object keeps its entries as generic JSON. -/
structure Manifest where
  id : String
  type : Option String
  releaseTime : Option String
  inheritsFrom : Option String
  mainClass : Option String
  arguments : Option (List (String × Json))
  libraries : Option (List Library)
  assetIndex : Option AssetIndexRef
  assets : Option String
  minecraftArguments : Option String
  /-- The value `versionData.downloads.client.url`; `none` when reading it throws. -/
  clientUrl : Option String := none
  /-- The prototype of the `arguments` object when an assignment to its
  `__proto__` has replaced it; `none` is `Object.prototype`, which every parsed
  object has. -/
  argumentsProto : Option Json := none

/-- What the launcher observes of its surroundings: the game directory, Node's
`path.sep` and `path.join`, and the state of the file system. `readManifest`
is `JSON.parse(readFile(p))`, `none` when either step throws; `readdir` is
`none` when `mkdir` or `readdir` throws; `isDirectory` is `none` when `stat`
throws. `now` is `new Date().toISOString()`. -/
structure Env where
  gameDir : String
  sep : Char
  join : List String → String
  existsSync : String → Bool
  readManifest : String → Option Manifest
  readdir : String → Option (List String)
  isDirectory : String → Option Bool
  now : String

/-- Failures raised by the modelled methods. -/
inductive LaunchError where
  | readFailed (path : String) : LaunchError
  | typeError (what : String) : LaunchError
  | requestFailed (url : String) : LaunchError
  | noStableLoader : LaunchError

/-! ## JavaScript helpers -/

/-- Truthiness of a possibly absent string: absent and `""` are falsy. -/
def truthyStr : Option String → Bool
  | none => false
  | some s => decide (s ≠ "")

/-- The expression `a || b` on possibly absent strings. -/
def orStr (a b : Option String) : Option String :=
  if truthyStr a then a else b

/-- The expression `a || b` on possibly absent objects (objects are truthy). -/
def orObj {α : Type} (a b : Option α) : Option α :=
  match a with
  | some x => some x
  | none => b

/-- Whether `pat` occurs as a contiguous block of `s`. -/
def includesChars (pat : List Char) : List Char → Bool
  | [] => pat.isEmpty
  | c :: cs => pat.isPrefixOf (c :: cs) || includesChars pat cs

/-- The method `s.includes(pat)`. -/
def strIncludes (s pat : String) : Bool := includesChars pat.data s.data

/-- The pieces of `s.split(sep)` for a one-character separator. -/
def splitChars (sep : Char) : List Char → List (List Char)
  | [] => [[]]
  | c :: cs =>
    if c = sep then [] :: splitChars sep cs
    else
      match splitChars sep cs with
      | [] => [[c]]
      | seg :: rest => (c :: seg) :: rest

/-- The expression `s.split(sep).pop()`. -/
def splitPop (s : String) (sep : Char) : String :=
  String.mk ((splitChars sep s.data).getLast?.getD [])

/-- The expression `s.replace(/\//g, sep)`: every `/` becomes `sep`. -/
def replaceSlashes (s : String) (sep : Char) : String :=
  String.mk (s.data.map (fun c => if c = '/' then sep else c))

/-- Property read `o[k]` on a JSON object. -/
def objGet (o : List (String × Json)) (k : String) : Option Json :=
  match o with
  | [] => none
  | (k', v) :: rest => if k' = k then some v else objGet rest k

/-- Property write `o[k] = v`: an existing key keeps its place. -/
def objSet (o : List (String × Json)) (k : String) (v : Json) : List (String × Json) :=
  match o with
  | [] => [(k, v)]
  | (k', v') :: rest => if k' = k then (k, v) :: rest else (k', v') :: objSet rest k v

/-- The test `Array.isArray(v)` with the array's items. -/
def asArray : Option Json → Option (List Json)
  | some (Json.arr items) => some items
  | _ => none

/-! ## checkLibraryRules (launcher.js 215-231) -/

/-- Body of the `for (const rule of rules)` loop: the new value of `allowed`. -/
def ruleStep (allowed : Bool) (rule : Rule) : Bool :=
  match rule.os with
  | none => rule.action == "allow"
  | some os => if os.name = some "windows" then rule.action == "allow" else allowed

/-- The method `checkLibraryRules(library)`. -/
def checkLibraryRules (library : Library) : Bool :=
  match library.rules with
  | none => true
  | some rules => rules.foldl ruleStep false

/-- A rule is applicable when it has no `os` or its `os.name` is `windows`. -/
def Rule.applicable (r : Rule) : Bool :=
  match r.os with
  | none => true
  | some os => decide (os.name = some "windows")

/-- A rule whose `os` constraint names the current platform. -/
def Rule.namesWindows (r : Rule) : Bool :=
  match r.os with
  | none => false
  | some os => decide (os.name = some "windows")

/-- A rule that has no `os` constraint. -/
def Rule.noOs (r : Rule) : Bool :=
  match r.os with
  | none => true
  | some _ => false

/-- The last element of a list satisfying `p`, if any. -/
def lastWhere {α : Type} (p : α → Bool) (xs : List α) : Option α :=
  xs.reverse.find? p

/-- The allow/disallow value of a rule's action. -/
def Rule.allows (r : Rule) : Bool := r.action == "allow"

/-! ## getVersions and getLocalVersions (launcher.js 37-89) -/

/-- Body of `for (const dir of dirs)` in `getLocalVersions`. -/
def localStep (env : Env) (versionsDir : String) (localVersions : List CatalogEntry)
    (dir : String) : List CatalogEntry :=
  let versionPath := env.join [versionsDir, dir]
  let jsonPath := env.join [versionPath, dir ++ ".json"]
  match env.isDirectory versionPath with
  | some true =>
    if env.existsSync jsonPath then
      match env.readManifest jsonPath with
      | some versionData =>
        localVersions ++ [{ id := dir
                            type := (orStr versionData.type (some "release")).getD "release"
                            releaseTime := (orStr versionData.releaseTime (some env.now)).getD env.now
                            url := ""
                            isLocal := some true
                            isFabric := some (strIncludes dir "fabric-loader") }]
      | none => localVersions
    else localVersions
  | _ => localVersions

/-- The method `getLocalVersions()`. -/
def getLocalVersions (env : Env) : List CatalogEntry :=
  let versionsDir := env.join [env.gameDir, "versions"]
  match env.readdir versionsDir with
  | none => []
  | some dirs => dirs.foldl (localStep env versionsDir) []

/-- Body of `for (const version of versions)` in `getVersions`. -/
def mergeStep (allVersions : List CatalogEntry) (version : CatalogEntry) : List CatalogEntry :=
  if (allVersions.find? (fun v => v.id == version.id)).isSome then allVersions
  else allVersions ++ [version]

/-- Lines 45-52 of `getVersions`, on the two awaited lists. -/
def getVersionsLoop (localVersions versions : List CatalogEntry) : List CatalogEntry :=
  versions.foldl mergeStep localVersions

/-- The method `getVersions()`; `versions` is the fetched `manifest.versions`. -/
def getVersions (env : Env) (versions : List CatalogEntry) : List CatalogEntry :=
  getVersionsLoop (getLocalVersions env) versions

/-- The ids of a catalog, in order. -/
def catalogIds (entries : List CatalogEntry) : List String := entries.map (fun e => e.id)

/-- The merged catalog as the specification words it: the local entries, then
each remote entry whose id occurs neither locally nor earlier in the remote
list. -/
def mergedCatalogSpec (loc rem : List CatalogEntry) : List CatalogEntry :=
  loc ++ (List.range rem.length).filterMap (fun i =>
    match rem[i]? with
    | some e =>
      if e.id ∉ catalogIds loc ∧ e.id ∉ catalogIds (rem.take i) then some e else none
    | none => none)

/-! ## resolveVersion and mergeArguments (launcher.js 485-520) -/

/-- The object `merged` while `mergeArguments` builds it: its own keys and,
once an assignment to `__proto__` has replaced it, its prototype (`none` is
`Object.prototype`). -/
structure MergedObject where
  own : List (String × Json)
  proto : Option Json

/-- Property write `merged[key] = v` (lines 514 and 516). An own key is
updated in place. A key `__proto__` that is not an own key reaches the setter
of `Object.prototype`: no key is added, and the prototype becomes `v` when `v`
is an object, an array or `null`. Any other key is added. -/
def assignKey (merged : MergedObject) (key : String) (v : Json) : MergedObject :=
  match objGet merged.own key with
  | some _ => { merged with own := objSet merged.own key v }
  | none =>
    if key = "__proto__" then
      match v with
      | Json.obj _ => { merged with proto := some v }
      | Json.arr _ => { merged with proto := some v }
      | Json.null => { merged with proto := some v }
      | _ => merged
    else { merged with own := objSet merged.own key v }

/-- Body of `for (const key in child)` in `mergeArguments`. The loop variable
ranges over the keys of `child`, so the read `child[key]` always succeeds. The
read `base[key]` of a key that `base` does not own yields `undefined` or a
member of `Object.prototype`, never an array. -/
def mergeArgStep (base child : List (String × Json)) (merged : MergedObject)
    (key : String) : MergedObject :=
  match objGet child key with
  | none => merged
  | some cv =>
    match asArray (some cv), asArray (objGet base key) with
    | some c, some b => assignKey merged key (Json.arr (b ++ c))
    | _, _ => assignKey merged key cv

/-- The object returned by `mergeArguments(base, child)`. The spread
`{ ...base }` copies the own keys of `base`, a key `__proto__` included. -/
def mergeArgumentsObject (base child : Option (List (String × Json))) : MergedObject :=
  match base, child with
  | none, none => { own := [], proto := none }
  | none, some c => { own := c, proto := none }
  | some b, none => { own := b, proto := none }
  | some b, some c =>
    (c.map (fun kv => kv.1)).foldl (mergeArgStep b c) { own := b, proto := none }

/-- The method `mergeArguments(base, child)`: the own keys of the object it
returns. -/
def mergeArguments (base child : Option (List (String × Json))) : List (String × Json) :=
  (mergeArgumentsObject base child).own

/-- The prototype of the object returned by `mergeArguments(base, child)`;
`none` is `Object.prototype`. -/
def mergeArgumentsProto (base child : Option (List (String × Json))) : Option Json :=
  (mergeArgumentsObject base child).proto

/-- The value `mergeArguments` is specified to hold under a key that `child`
maps to `cv`: base array followed by child array when both are arrays, else
the child's value. -/
def mergedValue (base : List (String × Json)) (cv : Json) (k : String) : Json :=
  match asArray (some cv), asArray (objGet base k) with
  | some c, some b => Json.arr (b ++ c)
  | _, _ => cv

/-- The prototype of the object `mergeArguments(baseData.arguments,
versionData.arguments)` returns: that of the argument it returns as it is
(lines 508 and 509), else that of `merged`. -/
def argumentsPrototype (baseData versionData : Manifest) : Option Json :=
  match baseData.arguments, versionData.arguments with
  | none, some _ => versionData.argumentsProto
  | some _, none => baseData.argumentsProto
  | _, _ => mergeArgumentsProto baseData.arguments versionData.arguments

/-- The method `resolveVersion(versionData)`. The base manifest is parsed
JSON; where both manifests have an `arguments` object, each is taken to have
the default prototype, as parsed objects do. -/
def resolveVersion (env : Env) (versionData : Manifest) : Except LaunchError Manifest :=
  if truthyStr versionData.inheritsFrom then
    let inh := versionData.inheritsFrom.getD ""
    let basePath := env.join [env.gameDir, "versions", inh, inh ++ ".json"]
    match env.readManifest basePath with
    | none => Except.error (LaunchError.readFailed basePath)
    | some baseData =>
      Except.ok
        { id := versionData.id
          type := none
          releaseTime := none
          inheritsFrom := none
          mainClass := orStr versionData.mainClass baseData.mainClass
          arguments := some (mergeArguments baseData.arguments versionData.arguments)
          libraries := some ((baseData.libraries.getD []) ++ (versionData.libraries.getD []))
          assetIndex := orObj versionData.assetIndex baseData.assetIndex
          assets := orStr versionData.assets baseData.assets
          minecraftArguments := orStr versionData.minecraftArguments baseData.minecraftArguments
          argumentsProto := argumentsPrototype baseData versionData }
  else Except.ok versionData

/-- JavaScript truthiness of a JSON value: arrays and objects are truthy,
`null`, `false`, `0` and `""` are falsy. -/
def jsonTruthy : Json → Bool
  | Json.null => false
  | Json.bool b => b
  | Json.num n => decide (n ≠ 0)
  | Json.str s => decide (s ≠ "")
  | Json.arr _ => true
  | Json.obj _ => true

/-- The value of a property that the object does not own, found on a
prototype that replaced the default one: an own key of that object. (For the
key read here, `game`, neither an array nor `Object.prototype` has a value.) -/
def inheritedProperty (proto : Option Json) (k : String) : Option Json :=
  match proto with
  | some (Json.obj fields) => objGet fields k
  | _ => none

/-- Whether the manifest carries the structured argument shape, as
`buildArguments` tests it (line 582):
`versionData.arguments && versionData.arguments.game`. The read of `game`
finds an own key first and an inherited one otherwise. -/
def hasStructured (m : Manifest) : Bool :=
  match m.arguments with
  | none => false
  | some a =>
    match objGet a "game" with
    | some g => jsonTruthy g
    | none =>
      match inheritedProperty m.argumentsProto "game" with
      | some g => jsonTruthy g
      | none => false

/-- Whether the manifest carries the legacy argument string (line 603). -/
def hasLegacy (m : Manifest) : Bool := truthyStr m.minecraftArguments

/-! ## buildClasspath (launcher.js 522-551) -/

/-- Body of `for (const lib of versionData.libraries)` in `buildClasspath`. -/
def classpathStep (env : Env) (librariesDir : String) (paths : List String)
    (lib : Library) : List String :=
  if !checkLibraryRules lib then paths
  else
    match lib.downloads with
    | none => paths
    | some downloads =>
      match downloads.artifact with
      | none => paths
      | some artifact =>
        let libPath := replaceSlashes artifact.path env.sep
        let filePath := env.join [librariesDir, libPath]
        if env.existsSync filePath then paths ++ [filePath] else paths

/-- The array `paths` after the library loop (lines 523-536). -/
def libraryPaths (env : Env) (libraries : List Library) : List String :=
  libraries.foldl (classpathStep env (env.join [env.gameDir, "libraries"])) []

/-- The entries pushed by lines 538-548: the main game jar. -/
def mainJarPaths (env : Env) (id versionDir : String) : List String :=
  if strIncludes id "fabric-loader" then
    let baseVersion := splitPop id '-'
    let baseJar := env.join [env.gameDir, "versions", baseVersion, baseVersion ++ ".jar"]
    if env.existsSync baseJar then [baseJar] else []
  else [env.join [versionDir, id ++ ".jar"]]

/-- The array `paths` just before `paths.join(';')`. Iterating an absent
`libraries` throws. -/
def classpathEntries (env : Env) (versionData : Manifest) (versionDir : String) :
    Except LaunchError (List String) :=
  match versionData.libraries with
  | none => Except.error (LaunchError.typeError "versionData.libraries is not iterable")
  | some libraries =>
    Except.ok (libraryPaths env libraries ++ mainJarPaths env versionData.id versionDir)

/-- The method `buildClasspath(versionData, versionDir)`. -/
def buildClasspath (env : Env) (versionData : Manifest) (versionDir : String) :
    Except LaunchError String :=
  match classpathEntries env versionData versionDir with
  | Except.error e => Except.error e
  | Except.ok paths => Except.ok (String.intercalate ";" paths)

/-- The local artifact path of a library that passes its rules, has a download
artifact and exists on disk; `none` otherwise. -/
def libraryEntry (env : Env) (lib : Library) : Option String :=
  if checkLibraryRules lib then
    match lib.downloads with
    | none => none
    | some downloads =>
      match downloads.artifact with
      | none => none
      | some artifact =>
        let filePath :=
          env.join [env.join [env.gameDir, "libraries"], replaceSlashes artifact.path env.sep]
        if env.existsSync filePath then some filePath else none
  else none

/-- The overlay id built by `installFabric` (line 354). -/
def fabricId (loaderVersion mcVersion : String) : String :=
  "fabric-loader-" ++ loaderVersion ++ "-" ++ mcVersion

/-! ## buildArguments (launcher.js 553-629) -/

/-- The account record passed to `launchGame`. -/
structure Account where
  username : String
  uuid : String
  accessToken : Option String
  type : Option String

/-- The fields of `settings` that `buildArguments` reads. The numbers are
integers (the renderer stores results of `Math.floor` and `parseInt`), printed
in decimal by template strings and `String(...)`. -/
structure Settings where
  ramMb : Option Int
  minRamMb : Option Int
  fullscreen : Bool
  windowWidth : Option Int
  windowHeight : Option Int

/-- The expression `a || d` on a possibly absent integer: absent and `0` are
falsy. -/
def orInt (a : Option Int) (d : Int) : Int :=
  match a with
  | none => d
  | some n => if n = 0 then d else n

/-- The first occurrence of `pat` in a text: the text before it and the text
after it. -/
def findFirst (pat : List Char) : List Char → Option (List Char × List Char)
  | [] => if pat.isEmpty then some ([], []) else none
  | c :: cs =>
    if pat.isPrefixOf (c :: cs) then some ([], (c :: cs).drop pat.length)
    else
      match findFirst pat cs with
      | none => none
      | some (before, after) => some (c :: before, after)

/-- The expansion of a replacement text by `String.prototype.replace` for a
string pattern: `$$` is `$`, `$&` the match, a dollar followed by a backtick
the text before the match, a dollar followed by an apostrophe the text after
it; every other character stands for itself. -/
def getSubstitution (matched before after : List Char) : List Char → List Char
  | [] => []
  | c :: rest =>
    if c = '$' then
      match rest with
      | [] => ['$']
      | d :: rest2 =>
        if d = '$' then '$' :: getSubstitution matched before after rest2
        else if d = '&' then matched ++ getSubstitution matched before after rest2
        else if d = Char.ofNat 96 then before ++ getSubstitution matched before after rest2
        else if d = Char.ofNat 39 then after ++ getSubstitution matched before after rest2
        else '$' :: d :: getSubstitution matched before after rest2
    else c :: getSubstitution matched before after rest

/-- The method `s.replace(pat, rep)` with a string pattern: only the first
occurrence of `pat` is replaced. -/
def jsReplace (s pat rep : String) : String :=
  match findFirst pat.data s.data with
  | none => s
  | some (before, after) =>
    String.mk (before ++ getSubstitution pat.data before after rep.data ++ after)

/-- The method `s.split(sep)` for a one-character separator. -/
def jsSplit (s : String) (sep : Char) : List String :=
  (splitChars sep s.data).map String.mk

/-- The value of `assetIndex` at line 580:
`versionData.assetIndex?.id || versionData.assets || 'legacy'`. -/
def assetIndexName (versionData : Manifest) : String :=
  (orStr (orStr (versionData.assetIndex.bind (fun a => a.id)) versionData.assets)
    (some "legacy")).getD "legacy"

/-- The window tail pushed at lines 595-602 and again at lines 618-625. -/
def windowArguments (settings : Settings) : List (Option String) :=
  if settings.fullscreen then [some "--fullscreen"]
  else
    [some "--width", some (toString (orInt settings.windowWidth 1280)),
     some "--height", some (toString (orInt settings.windowHeight 720))]

/-- The fixed garbage-collector flags of lines 565-570. -/
def gcFlags : List (Option String) :=
  [some "-XX:+UnlockExperimentalVMOptions", some "-XX:+UseG1GC",
   some "-XX:G1NewSizePercent=20", some "-XX:G1ReservePercent=20",
   some "-XX:MaxGCPauseMillis=50", some "-XX:G1HeapRegionSize=32M"]

/-- The first `args.push(...)` (lines 559-577). An absent `mainClass` is
pushed as `undefined`, here `none`. -/
def jvmArguments (env : Env) (versionData : Manifest) (versionDir classpath : String)
    (settings : Settings) : List (Option String) :=
  let nativesPath := env.join [versionDir, "natives"]
  let ramMb := orInt settings.ramMb 4096
  let minRamMb := orInt settings.minRamMb (Int.fdiv ramMb 2)
  [some ("-Xms" ++ toString minRamMb ++ "M"), some ("-Xmx" ++ toString ramMb ++ "M")] ++
    gcFlags ++
    [some ("-Djava.library.path=" ++ nativesPath),
     some "-Dminecraft.launcher.brand=NsLauncher",
     some "-Dminecraft.launcher.version=1.0.0",
     some "-cp", some classpath, versionData.mainClass]

/-- The flag/value pairs pushed at lines 583-593. -/
def structuredArguments (env : Env) (versionData : Manifest) (account : Account) :
    List (Option String) :=
  [some "--username", some account.username,
   some "--version", some versionData.id,
   some "--gameDir", some env.gameDir,
   some "--assetsDir", some (env.join [env.gameDir, "assets"]),
   some "--assetIndex", some (assetIndexName versionData),
   some "--uuid", some account.uuid,
   some "--accessToken", some ((orStr account.accessToken (some "0")).getD "0"),
   some "--userType", some ((orStr account.type (some "legacy")).getD "legacy"),
   some "--versionType", some "release"]

/-- The chain of `replace` calls at lines 605-614. -/
def substituteLegacy (env : Env) (versionData : Manifest) (account : Account)
    (template : String) : String :=
  let s1 := jsReplace template "${auth_player_name}" account.username
  let s2 := jsReplace s1 "${version_name}" versionData.id
  let s3 := jsReplace s2 "${game_directory}" env.gameDir
  let s4 := jsReplace s3 "${assets_root}" (env.join [env.gameDir, "assets"])
  let s5 := jsReplace s4 "${assets_index_name}" (assetIndexName versionData)
  let s6 := jsReplace s5 "${auth_uuid}" account.uuid
  let s7 := jsReplace s6 "${auth_access_token}" ((orStr account.accessToken (some "0")).getD "0")
  let s8 := jsReplace s7 "${user_type}" ((orStr account.type (some "legacy")).getD "legacy")
  jsReplace s8 "${version_type}" "release"

/-- The tokens pushed at line 616: `processed.split(' ')`. -/
def legacyTokens (env : Env) (versionData : Manifest) (account : Account)
    (template : String) : List String :=
  jsSplit (substituteLegacy env versionData account template) ' '

/-- The game arguments pushed after the main class (lines 579-626). -/
def gameArguments (env : Env) (versionData : Manifest) (account : Account)
    (settings : Settings) : List (Option String) :=
  if hasStructured versionData then
    structuredArguments env versionData account ++ windowArguments settings
  else if truthyStr versionData.minecraftArguments then
    (legacyTokens env versionData account (versionData.minecraftArguments.getD "")).map some ++
      windowArguments settings
  else []

/-- The method `buildArguments(versionData, versionDir, classpath, account,
settings)`; `undefined` entries of the array are `none`. -/
def buildArguments (env : Env) (versionData : Manifest) (versionDir classpath : String)
    (account : Account) (settings : Settings) : List (Option String) :=
  jvmArguments env versionData versionDir classpath settings ++
    gameArguments env versionData account settings

/-! ## Binary64 arithmetic of the progress values -/

/-- A finite non-negative binary64 number, `mant / 2 ^ scale`. `roundDbl`
returns numbers in lowest terms, so equal numbers are equal records. Overflow
and subnormal numbers are not modelled. -/
structure Dbl where
  mant : Nat
  scale : Nat
  deriving DecidableEq

/-- The record in lowest terms for `m / 2 ^ k`. -/
def Dbl.normalize : Nat → Nat → Dbl
  | m, 0 => { mant := m, scale := 0 }
  | m, k + 1 =>
    if m = 0 then { mant := 0, scale := 0 }
    else if m % 2 = 0 then Dbl.normalize (m / 2) k
    else { mant := m, scale := k + 1 }

/-- The integer nearest to `a / b`, ties to even. -/
def roundHalfEven (a b : Nat) : Nat :=
  let q := a / b
  let r := a % b
  if 2 * r < b then q else if b < 2 * r then q + 1 else if q % 2 = 0 then q else q + 1

/-- The position of the leading bit of `n`: `fuel` bounds the number of halvings. -/
def log2Fuel : Nat → Nat → Nat
  | 0, _ => 0
  | fuel + 1, n => if n < 2 then 0 else log2Fuel fuel (n / 2) + 1

/-- The exponent `e` with `2 ^ e ≤ n / d < 2 ^ (e + 1)`, for positive `n`, `d`. -/
def binade (n d : Nat) : Int :=
  let e0 : Int := (log2Fuel n n : Int) - (log2Fuel d d : Int)
  if 0 ≤ e0 then (if d * 2 ^ e0.toNat ≤ n then e0 else e0 - 1)
  else (if d ≤ n * 2 ^ (-e0).toNat then e0 else e0 - 1)

/-- The binary64 number nearest to the exact quotient `n / d` (53 significant
bits, round to nearest, ties to even). A zero divisor does not occur in the
modelled code; the value there is `0`. -/
def roundDbl (n d : Nat) : Dbl :=
  if n = 0 ∨ d = 0 then { mant := 0, scale := 0 }
  else
    let s : Int := binade n d - 52
    if 0 ≤ s then { mant := roundHalfEven n (d * 2 ^ s.toNat) * 2 ^ s.toNat, scale := 0 }
    else Dbl.normalize (roundHalfEven (n * 2 ^ (-s).toNat) d) (-s).toNat

/-- The sum `a + b` of two doubles. -/
def fadd (a b : Dbl) : Dbl :=
  roundDbl (a.mant * 2 ^ b.scale + b.mant * 2 ^ a.scale) (2 ^ (a.scale + b.scale))

/-- The product `a * b` of two doubles. -/
def fmul (a b : Dbl) : Dbl := roundDbl (a.mant * b.mant) (2 ^ (a.scale + b.scale))

/-- The quotient `a / b` of two integers held as doubles. -/
def fdiv (a b : Nat) : Dbl := roundDbl a b

/-- The double `0`. -/
def Dbl.zero : Dbl := { mant := 0, scale := 0 }

/-- The double `1.0`. -/
def Dbl.one : Dbl := { mant := 1, scale := 0 }

/-- The order of the represented numbers. -/
def Dbl.le (a b : Dbl) : Prop := a.mant * 2 ^ b.scale ≤ b.mant * 2 ^ a.scale

/-- The strict order of the represented numbers. -/
def Dbl.lt (a b : Dbl) : Prop := a.mant * 2 ^ b.scale < b.mant * 2 ^ a.scale

instance : LE Dbl := ⟨Dbl.le⟩

instance : LT Dbl := ⟨Dbl.lt⟩

instance (a b : Dbl) : Decidable (a ≤ b) :=
  inferInstanceAs (Decidable (a.mant * 2 ^ b.scale ≤ b.mant * 2 ^ a.scale))

instance (a b : Dbl) : Decidable (a < b) :=
  inferInstanceAs (Decidable (a.mant * 2 ^ b.scale < b.mant * 2 ^ a.scale))

/-- A list of doubles is non-decreasing. -/
def nonDecreasing : List Dbl → Bool
  | [] => true
  | [_] => true
  | a :: b :: rest => decide (a ≤ b) && nonDecreasing (b :: rest)

/-! ## downloadFile, downloadLibraries, downloadAssets (launcher.js 189-338) -/

/-- One streamed request as `downloadFile` observes it: the quotients
`downloadedLength / totalLength` handed to `onProgress` chunk by chunk (none
without a `content-length`), and whether the transfer completes. -/
structure Transfer where
  progress : List Dbl
  ok : Bool

/-- An object of the asset index. -/
structure AssetObject where
  hash : String
  deriving DecidableEq

/-- An entry of the loader list of the Fabric metadata service. -/
structure LoaderVersion where
  version : String
  stable : Bool

/-- The network and the remaining host functions: the streamed requests, the
JSON requests (`none` when the request or the reading of its body throws),
`path.basename`, and the parsed asset index on disk. -/
structure World where
  get : String → Transfer
  basename : String → String
  readIndex : String → Option (List (String × AssetObject))
  fetchIndex : String → Option (List (String × AssetObject))
  fetchVersion : String → Option Manifest
  loaderVersions : Option (List LoaderVersion)
  fetchProfile : String → Option Manifest
  catalog : Option (List CatalogEntry)

/-- What a download method leaves behind: the values passed to its progress
callback, the files written so far, and the exception that ended it. -/
structure Outcome where
  progress : List Dbl
  files : List String
  error : Option LaunchError

/-- The test `fsSync.existsSync(p)` during a run that has written `files`. -/
def present (env : Env) (files : List String) (p : String) : Bool :=
  env.existsSync p || files.contains p

/-- The method `downloadFile(url, destPath, onProgress)`. -/
def downloadFile (world : World) (files : List String) (url destPath : String) : Outcome :=
  let t := world.get url
  if t.ok then { progress := t.progress, files := destPath :: files, error := none }
  else { progress := t.progress, files := files, error := some (LaunchError.requestFailed url) }

/-- Lines 241-249: the artifact of one library. The result is the files written
and whether the step ended without an exception. -/
def artifactStep (env : Env) (world : World) (librariesDir : String) (files : List String)
    (lib : Library) : List String × Bool :=
  match lib.downloads with
  | none => (files, true)
  | some downloads =>
    match downloads.artifact with
    | none => (files, true)
    | some artifact =>
      let libPath := replaceSlashes artifact.path env.sep
      let filePath := env.join [librariesDir, libPath]
      if present env files filePath then (files, true)
      else
        let o := downloadFile world files artifact.url filePath
        (o.files, o.error.isNone)

/-- Lines 252-263: the native archive of one library. `extractNatives` catches
its own exceptions. -/
def nativesStep (env : Env) (world : World) (nativesDir : String) (files : List String)
    (lib : Library) : List String × Bool :=
  match lib.downloads with
  | none => (files, true)
  | some downloads =>
    match downloads.classifiers, lib.natives with
    | some classifiers, some natives =>
      let nativeKey :=
        (orStr ((natives.lookup "windows").map (fun w => jsReplace w "${arch}" "64"))
          (some "natives-windows")).getD "natives-windows"
      match classifiers.lookup nativeKey with
      | none => (files, true)
      | some nativeArtifact =>
        let nativePath := env.join [nativesDir, world.basename nativeArtifact.path]
        if present env files nativePath then (files, true)
        else
          let o := downloadFile world files nativeArtifact.url nativePath
          (o.files, o.error.isNone)
    | _, _ => (files, true)

/-- The state of the loop of `downloadLibraries`. -/
structure LibrariesRun where
  files : List String
  completed : Nat
  processed : Nat
  progress : List Dbl

/-- Body of `for (const lib of libraries)` in `downloadLibraries`: the `try`
block reaches `completed++` and the callback only when neither download
throws; the `catch` block logs and goes on. -/
def librariesStep (env : Env) (world : World) (librariesDir nativesDir : String) (total : Nat)
    (run : LibrariesRun) (lib : Library) : LibrariesRun :=
  let a := artifactStep env world librariesDir run.files lib
  if a.2 then
    let n := nativesStep env world nativesDir a.1 lib
    if n.2 then
      { files := n.1, completed := run.completed + 1, processed := run.processed + 1,
        progress := run.progress ++ [fdiv (run.completed + 1) total] }
    else { run with files := n.1, processed := run.processed + 1 }
  else { run with files := a.1, processed := run.processed + 1 }

/-- The method `downloadLibraries(libraries, librariesDir, nativesDir,
onProgress)`; it never throws. -/
def downloadLibraries (env : Env) (world : World) (librariesDir nativesDir : String)
    (files : List String) (libraries : List Library) : LibrariesRun :=
  libraries.foldl (librariesStep env world librariesDir nativesDir libraries.length)
    { files := files, completed := 0, processed := 0, progress := [] }

/-- What `downloadAssets` leaves behind; `batches` are the slices handed to
`Promise.all`. -/
structure AssetsRun where
  progress : List Dbl
  batches : List (List (String × AssetObject))
  files : List String
  error : Option LaunchError

/-- The constant `this.resourcesUrl`. -/
def resourcesUrl : String := "https://resources.download.minecraft.net"

/-- The expression `hash.substring(0, 2)`. -/
def hashPrefix (hash : String) : String := String.mk (hash.data.take 2)

/-- One member of a batch (lines 321-330): the existence test is made when the
batch starts, against `files`; the result adds the file written, or reports
the failed request. -/
def assetTransfer (env : Env) (world : World) (objectsDir : String) (files : List String)
    (acc : List String × Option LaunchError) (entry : String × AssetObject) :
    List String × Option LaunchError :=
  let hash := entry.2.hash
  let assetPath := env.join [objectsDir, hashPrefix hash, hash]
  if present env files assetPath then acc
  else
    let url := resourcesUrl ++ "/" ++ hashPrefix hash ++ "/" ++ hash
    if (world.get url).ok then (assetPath :: acc.1, acc.2)
    else (acc.1, acc.2.orElse (fun _ => some (LaunchError.requestFailed url)))

/-- The call `Promise.all(batch.map(...))`: the files written by the batch and
the first failure, if any. -/
def batchTransfers (env : Env) (world : World) (objectsDir : String) (files : List String)
    (batch : List (String × AssetObject)) : List String × Option LaunchError :=
  batch.foldl (assetTransfer env world objectsDir files) (files, none)

/-- The loop `for (let i = 0; i < objects.length; i += batchSize)` (lines
317-337); `fuel` bounds the number of iterations. -/
def assetLoop (env : Env) (world : World) (objectsDir : String)
    (objects : List (String × AssetObject)) : Nat → Nat → AssetsRun → AssetsRun
  | 0, _, run => run
  | fuel + 1, i, run =>
    if i < objects.length then
      let batch := (objects.drop i).take 30
      let r := batchTransfers env world objectsDir run.files batch
      match r.2 with
      | some e =>
        { run with batches := run.batches ++ [batch], files := r.1, error := some e }
      | none =>
        assetLoop env world objectsDir objects fuel (i + 30)
          { progress := run.progress ++ [fdiv (min (i + 30) objects.length) objects.length]
            batches := run.batches ++ [batch]
            files := r.1
            error := none }
    else run

/-- Lines 311-337 of `downloadAssets`, on the entries of the index. Every
iteration advances `i` by 30, so `objects.length` iterations suffice. -/
def downloadAssetsLoop (env : Env) (world : World) (objectsDir : String) (files : List String)
    (objects : List (String × AssetObject)) : AssetsRun :=
  assetLoop env world objectsDir objects objects.length 0
    { progress := [], batches := [], files := files, error := none }

/-- Lines 293-311 of `downloadAssets`: the objects directory, the files written
and the entries of the index, read from disk when the index file exists and
fetched (and written) otherwise. -/
def loadAssetIndex (env : Env) (world : World) (versionData : Manifest) (assetsDir : String)
    (files : List String) :
    Except LaunchError (String × List String × List (String × AssetObject)) :=
  match versionData.assetIndex with
  | none => Except.error (LaunchError.typeError "assetIndex is undefined")
  | some assetIndex =>
    let indexDir := env.join [assetsDir, "indexes"]
    let objectsDir := env.join [assetsDir, "objects"]
    let indexPath := env.join [indexDir, assetIndex.id.getD "undefined" ++ ".json"]
    if present env files indexPath then
      match world.readIndex indexPath with
      | none => Except.error (LaunchError.readFailed indexPath)
      | some objects => Except.ok (objectsDir, files, objects)
    else
      match assetIndex.url.bind world.fetchIndex with
      | none => Except.error (LaunchError.requestFailed (assetIndex.url.getD "undefined"))
      | some objects => Except.ok (objectsDir, indexPath :: files, objects)

/-- The method `downloadAssets(versionData, assetsDir, onProgress)`. -/
def downloadAssets (env : Env) (world : World) (versionData : Manifest) (assetsDir : String)
    (files : List String) : AssetsRun :=
  match loadAssetIndex env world versionData assetsDir files with
  | Except.error e => { progress := [], batches := [], files := files, error := some e }
  | Except.ok (objectsDir, files1, objects) =>
    downloadAssetsLoop env world objectsDir files1 objects

/-! ## downloadVersion (launcher.js 91-187) -/

/-- One call of the caller's progress callback. -/
structure Report where
  status : String
  progress : Dbl
  deriving DecidableEq

/-- What `downloadVersion` and `installFabric` leave behind. -/
structure VersionRun where
  reports : List Report
  files : List String
  error : Option LaunchError

/-- The literal `0.15`. -/
def clientWeight : Dbl := roundDbl 15 100

/-- The literal `0.55`. -/
def librariesWeight : Dbl := roundDbl 55 100

/-- The literal `0.30`. -/
def assetsWeight : Dbl := roundDbl 30 100

/-- The literal `0.70`. -/
def afterLibraries : Dbl := roundDbl 70 100

/-- The closure `updateProgress(status, progress)` (lines 154-158): the value
passed on is `totalProgress + progress`. -/
def updateProgress (totalProgress : Dbl) (status : String) (progress : Dbl) : Report :=
  { status := status, progress := fadd totalProgress progress }

/-- The method `getVersionData(version)`: the local manifest when it exists,
else the fetched one; `none` when it throws. -/
def getVersionData (env : Env) (world : World) (version : CatalogEntry) : Option Manifest :=
  let versionPath := env.join [env.gameDir, "versions", version.id, version.id ++ ".json"]
  if env.existsSync versionPath then env.readManifest versionPath
  else world.fetchVersion version.url

/-- The method `downloadVersion(version, onProgress)`. -/
def downloadVersion (env : Env) (world : World) (files : List String) (version : CatalogEntry) :
    VersionRun :=
  match getVersionData env world version with
  | none => { reports := [], files := files, error := some (LaunchError.requestFailed version.url) }
  | some versionData =>
    let versionDir := env.join [env.gameDir, "versions", version.id]
    let librariesDir := env.join [env.gameDir, "libraries"]
    let assetsDir := env.join [env.gameDir, "assets"]
    let nativesDir := env.join [versionDir, "natives"]
    let files0 := env.join [versionDir, version.id ++ ".json"] :: files
    let r1 := [updateProgress Dbl.zero "Загрузка клиента..." Dbl.zero]
    match versionData.clientUrl with
    | none =>
      { reports := r1, files := files0,
        error := some (LaunchError.typeError "versionData.downloads.client.url") }
    | some clientUrl =>
      let clientFile := env.join [versionDir, version.id ++ ".jar"]
      let client : Outcome :=
        if present env files0 clientFile then { progress := [], files := files0, error := none }
        else downloadFile world files0 clientUrl clientFile
      let r2 := r1 ++ client.progress.map
        (fun p => updateProgress Dbl.zero "Загрузка клиента..." (fmul p clientWeight))
      match client.error with
      | some e => { reports := r2, files := client.files, error := some e }
      | none =>
        let r3 := r2 ++ [updateProgress clientWeight "Загрузка библиотек..." Dbl.zero]
        match versionData.libraries with
        | none =>
          { reports := r3, files := client.files,
            error := some (LaunchError.typeError "versionData.libraries.filter") }
        | some allLibraries =>
          let libraries := allLibraries.filter checkLibraryRules
          let lr := downloadLibraries env world librariesDir nativesDir client.files libraries
          let r4 := r3 ++ lr.progress.map
            (fun p => updateProgress clientWeight "Загрузка библиотек..." (fmul p librariesWeight))
          let r5 := r4 ++ [updateProgress afterLibraries "Загрузка ресурсов..." Dbl.zero]
          let ar := downloadAssets env world versionData assetsDir lr.files
          let r6 := r5 ++ ar.progress.map
            (fun p => updateProgress afterLibraries "Загрузка ресурсов..." (fmul p assetsWeight))
          match ar.error with
          | some e => { reports := r6, files := ar.files, error := some e }
          | none =>
            { reports := r6 ++ [updateProgress Dbl.one "Готово!" Dbl.one]
              files := ar.files
              error := none }

/-! ## isVersionInstalled and installFabric (launcher.js 105-128, 344-405) -/

/-- The method `isVersionInstalled(versionId)`; `fuel` bounds the depth of the
recursion through `inheritsFrom`, and `none` means the bound was reached. -/
def isVersionInstalled (env : Env) : Nat → String → Option Bool
  | 0, _ => none
  | fuel + 1, versionId =>
    let versionDir := env.join [env.gameDir, "versions", versionId]
    let jsonFile := env.join [versionDir, versionId ++ ".json"]
    let jarFile := env.join [versionDir, versionId ++ ".jar"]
    if env.existsSync jsonFile then
      if strIncludes versionId "fabric-loader" then
        match env.readManifest jsonFile with
        | none => some false
        | some versionData =>
          if truthyStr versionData.inheritsFrom then
            isVersionInstalled env fuel (versionData.inheritsFrom.getD "")
          else some true
      else if env.existsSync jarFile then some true
      else some false
    else some false

/-- The file system after `writeFile(path, JSON.stringify(manifest))`. -/
def writeManifest (env : Env) (path : String) (manifest : Manifest) : Env :=
  { env with
    existsSync := fun p => p == path || env.existsSync p
    readManifest := fun p => if p = path then some manifest else env.readManifest p }

/-- The constant `this.fabricMetaUrl`. -/
def fabricMetaUrl : String := "https://meta.fabricmc.net/v2"

/-- Lines 375-389 of `installFabric`: the check of the base version and its
download. The result is `none` when `isVersionInstalled` does not answer
within `fuel`. -/
def installBase (env : Env) (world : World) (fuel : Nat) (inheritsFrom : Option String) :
    Option VersionRun :=
  if truthyStr inheritsFrom then
    let inh := inheritsFrom.getD ""
    match isVersionInstalled env fuel inh with
    | none => none
    | some true => some { reports := [], files := [], error := none }
    | some false =>
      match world.catalog with
      | none =>
        some { reports := [], files := [],
               error := some (LaunchError.requestFailed "version_manifest.json") }
      | some versions =>
        match versions.find? (fun v => v.id == inh) with
        | none => some { reports := [], files := [], error := none }
        | some baseVersion =>
          let status := "Загрузка базовой версии " ++ inh ++ "..."
          let dv := downloadVersion env world [] baseVersion
          some
            { reports :=
                { status := status, progress := roundDbl 3 10 } ::
                  dv.reports.map (fun p =>
                    { status := status
                      progress := fadd (roundDbl 3 10) (fmul p.progress (roundDbl 4 10)) })
              files := dv.files
              error := dv.error }
  else some { reports := [], files := [], error := none }

/-- The method `installFabric(mcVersion, onProgress)`: the reports passed to
the callback and the error rethrown, if any. The result is `none` when
`isVersionInstalled` does not answer within `fuel`. -/
def installFabric (env : Env) (world : World) (fuel : Nat) (mcVersion : String) :
    Option VersionRun :=
  match world.loaderVersions with
  | none =>
    some { reports := [], files := [],
           error := some (LaunchError.requestFailed (fabricMetaUrl ++ "/versions/loader")) }
  | some loaderVersions =>
    match loaderVersions.find? (fun v => v.stable) with
    | none => some { reports := [], files := [], error := some LaunchError.noStableLoader }
    | some stableLoader =>
      let id := fabricId stableLoader.version mcVersion
      let r1 : List Report := [{ status := "Загрузка Fabric профиля...", progress := roundDbl 1 10 }]
      let profileUrl := fabricMetaUrl ++ "/versions/loader/" ++ mcVersion ++ "/" ++
        stableLoader.version ++ "/profile/json"
      match world.fetchProfile profileUrl with
      | none =>
        some { reports := r1, files := [], error := some (LaunchError.requestFailed profileUrl) }
      | some profileData =>
        let versionDir := env.join [env.gameDir, "versions", id]
        let env1 := writeManifest env (env.join [versionDir, id ++ ".json"]) profileData
        let r2 := r1 ++ [{ status := "Проверка базовой версии...", progress := roundDbl 2 10 }]
        match installBase env1 world fuel profileData.inheritsFrom with
        | none => none
        | some base =>
          match base.error with
          | some e => some { reports := r2 ++ base.reports, files := base.files, error := some e }
          | none =>
            let r3 := r2 ++ base.reports ++
              [{ status := "Загрузка библиотек Fabric...", progress := roundDbl 7 10 }]
            let librariesDir := env.join [env.gameDir, "libraries"]
            let lr := downloadLibraries env1 world librariesDir (env.join [versionDir, "natives"])
              base.files (profileData.libraries.getD [])
            some
              { reports := r3 ++ [{ status := "Fabric установлен!", progress := Dbl.one }]
                files := lr.files
                error := none }

/-! ## generateOfflineUUID (renderer.js 693-702) -/

/-- The UTF-16 code units of a string, the values of `charCodeAt`. -/
def utf16Units (s : String) : List Nat :=
  s.data.flatMap (fun c =>
    if c.toNat < 65536 then [c.toNat]
    else [55296 + (c.toNat - 65536) / 1024, 56320 + (c.toNat - 65536) % 1024])

/-- The conversion `ToInt32`: the value modulo `2 ^ 32`, read as a signed
32-bit integer. The bitwise operators of JavaScript return such values. -/
def toInt32 (x : Int) : Int :=
  let m := x % 4294967296
  if 2147483648 ≤ m then m - 4294967296 else m

/-- Body of the loop: `hash = ((hash << 5) - hash + data.charCodeAt(i)) &
0xFFFFFFFF`. The mask is `-1` as a 32-bit integer, so `&` only applies
`ToInt32`. -/
def hashStep (hash : Int) (code : Nat) : Int :=
  toInt32 (toInt32 (hash * 32) - hash + (code : Int))

/-- The method `n.toString(16)` on an integer: a minus sign for a negative
number, then the hexadecimal digits of its magnitude. -/
def toStringHex (n : Int) : String :=
  if n < 0 then String.mk ('-' :: Nat.toDigits 16 n.natAbs)
  else String.mk (Nat.toDigits 16 n.natAbs)

/-- The method `s.padStart(n, '0')`. -/
def padStartZero (s : String) (n : Nat) : String :=
  String.mk (List.replicate (n - s.data.length) '0' ++ s.data)

/-- The function `generateOfflineUUID(username)`. -/
def generateOfflineUUID (username : String) : String :=
  let data := "OfflinePlayer:" ++ username
  let hash := (utf16Units data).foldl hashStep 0
  let hex := padStartZero (toStringHex hash) 8
  "00000000-0000-0000-0000-" ++ padStartZero hex 12

/-- A hexadecimal digit. -/
def isHexDigit (c : Char) : Bool :=
  (decide ('0' ≤ c) && decide (c ≤ '9')) || (decide ('a' ≤ c) && decide (c ≤ 'f')) ||
    (decide ('A' ≤ c) && decide (c ≤ 'F'))

/-- A UUID-shaped string: five groups of 8, 4, 4, 4 and 12 hexadecimal digits
separated by single hyphens. -/
def uuidShaped (s : String) : Bool :=
  let groups := splitChars '-' s.data
  decide (groups.map List.length = [8, 4, 4, 4, 12]) && groups.all (fun g => g.all isHexDigit)

/-! ## Concrete inputs used by the closed statements below -/

/-- A rule `{action, os: {name}}`. -/
def osRule (action osName : String) : Rule :=
  { action := action, os := some { name := some osName } }

/-- A rule `{action}` without `os`. -/
def plainRule (action : String) : Rule := { action := action, os := none }

/-- A library with the given rules and no downloads. -/
def ruleLibrary (rules : Option (List Rule)) : Library :=
  { name := "org.lwjgl:lwjgl:3.3.1", downloads := none, natives := none, rules := rules }

/-- Rules `[allow on windows, disallow everywhere]`. -/
def overrideRules : List Rule := [osRule "allow" "windows", plainRule "disallow"]

/-- Rules `[allow everywhere, disallow on osx]`. -/
def osxRules : List Rule := [plainRule "allow", osRule "disallow" "osx"]

/-- A catalog entry as it comes from the remote manifest. -/
def remoteEntry (id : String) : CatalogEntry :=
  { id := id, type := "release", releaseTime := "2023-06-12T13:25:51+00:00",
    url := "https://piston-meta.mojang.com/v1/packages/" ++ id ++ ".json",
    isLocal := none, isFabric := none }

/-- A catalog entry as `getLocalVersions` builds it. -/
def localEntry (id : String) : CatalogEntry :=
  { id := id, type := "release", releaseTime := "2023-06-12T13:25:51+00:00", url := "",
    isLocal := some true, isFabric := some false }

/-- The keys of a JSON object, in order. -/
def objKeys (o : List (String × Json)) : List String := o.map (fun kv => kv.1)

/-- A library with a download artifact at `path` and no rules. -/
def artifactLibrary (name path : String) : Library :=
  { name := name
    downloads := some { artifact := some { path := path, url := "https://libraries.minecraft.net/" ++ path }
                        classifiers := none }
    natives := none
    rules := none }

/-- A manifest with the given id and nothing else. -/
def bareManifest (id : String) : Manifest :=
  { id := id, type := none, releaseTime := none, inheritsFrom := none, mainClass := none,
    arguments := none, libraries := none, assetIndex := none, assets := none,
    minecraftArguments := none }

/-- An environment rooted at `/mc` whose `path.join` glues already normalised
segments with `/`, holding the given files and parsed manifests. -/
def fixedEnv (files : List String) (manifests : List (String × Manifest)) : Env :=
  { gameDir := "/mc"
    sep := '/'
    join := fun parts => String.intercalate "/" parts
    existsSync := fun p => files.contains p
    readManifest := fun p => (manifests.find? (fun pm => pm.1 == p)).map (fun pm => pm.2)
    readdir := fun _ => none
    isDirectory := fun _ => none
    now := "2026-01-01T00:00:00.000Z" }

/-- The base manifest `1.20.1` with one library and structured arguments. -/
def baseManifest : Manifest :=
  { bareManifest "1.20.1" with
    mainClass := some "net.minecraft.client.main.Main"
    arguments := some [("game", Json.arr [Json.str "--username"]), ("jvm", Json.arr [])]
    libraries := some [artifactLibrary "com.mojang:brigadier:1.1.8"
      "com/mojang/brigadier/1.1.8/brigadier-1.1.8.jar"] }

/-- The overlay `fabric-loader-0.15.0-1.20.1` inheriting from `1.20.1`. -/
def overlayManifest : Manifest :=
  { bareManifest "fabric-loader-0.15.0-1.20.1" with
    inheritsFrom := some "1.20.1"
    mainClass := some "net.fabricmc.loader.impl.launch.knot.KnotClient"
    arguments := some [("game", Json.arr []), ("jvm", Json.arr [Json.str "-DFabricMcEmu=x"])]
    libraries := some [artifactLibrary "net.fabricmc:fabric-loader:0.15.0"
      "net/fabricmc/fabric-loader/0.15.0/fabric-loader-0.15.0.jar"] }

/-- An installation holding `1.20.1` (manifest, jar, library) and the overlay's
library. -/
def overlayEnv : Env :=
  fixedEnv
    ["/mc/versions/1.20.1/1.20.1.jar",
     "/mc/libraries/com/mojang/brigadier/1.1.8/brigadier-1.1.8.jar",
     "/mc/libraries/net/fabricmc/fabric-loader/0.15.0/fabric-loader-0.15.0.jar"]
    [("/mc/versions/1.20.1/1.20.1.json", baseManifest)]

/-- An overlay whose `inheritsFrom` names the overlay itself. -/
def selfOverlay : Manifest :=
  { overlayManifest with inheritsFrom := some "fabric-loader-0.15.0-1.20.1" }

/-- An installation in which the overlay's base is the overlay itself. -/
def selfEnv : Env :=
  fixedEnv []
    [("/mc/versions/fabric-loader-0.15.0-1.20.1/fabric-loader-0.15.0-1.20.1.json", selfOverlay)]

/-- A base manifest `1.12.2` in the legacy shape only. -/
def legacyBase : Manifest :=
  { bareManifest "1.12.2" with
    mainClass := some "net.minecraft.launchwrapper.Launch"
    minecraftArguments := some "--username ${auth_player_name} --version ${version_name}" }

/-- An overlay of `1.12.2` in the structured shape only. -/
def structuredOverlay : Manifest :=
  { bareManifest "fabric-loader-0.15.0-1.12.2" with
    inheritsFrom := some "1.12.2"
    arguments := some [("game", Json.arr []), ("jvm", Json.arr [])] }

/-- An installation holding the manifest of `1.12.2`. -/
def legacyEnv : Env := fixedEnv [] [("/mc/versions/1.12.2/1.12.2.json", legacyBase)]

/-- The base manifest of the pre-release `1.20-pre1`. -/
def preBase : Manifest :=
  { bareManifest "1.20-pre1" with
    mainClass := some "net.minecraft.client.main.Main"
    libraries := some [artifactLibrary "com.mojang:brigadier:1.1.8"
      "com/mojang/brigadier/1.1.8/brigadier-1.1.8.jar"] }

/-- The overlay `installFabric` derives for `1.20-pre1`. -/
def preOverlay : Manifest :=
  { bareManifest (fabricId "0.15.0" "1.20-pre1") with
    inheritsFrom := some "1.20-pre1"
    mainClass := some "net.fabricmc.loader.impl.launch.knot.KnotClient"
    libraries := some [] }

/-- A complete installation of `1.20-pre1`: manifest, game jar and library. -/
def preEnv : Env :=
  fixedEnv
    ["/mc/versions/1.20-pre1/1.20-pre1.jar",
     "/mc/libraries/com/mojang/brigadier/1.1.8/brigadier-1.1.8.jar"]
    [("/mc/versions/1.20-pre1/1.20-pre1.json", preBase)]

/-- The offline account `Steve`. -/
def steve : Account :=
  { username := "Steve", uuid := "5627dd98-e6be-3c21-b8a8-e92344183641",
    accessToken := none, type := none }

/-- Settings with every field unset. -/
def defaultSettings : Settings :=
  { ramMb := none, minRamMb := none, fullscreen := false, windowWidth := none,
    windowHeight := none }

/-- A legacy manifest whose template names the player twice. -/
def twiceNamed : Manifest :=
  { bareManifest "1.12.2" with
    mainClass := some "net.minecraft.launchwrapper.Launch"
    minecraftArguments := some "--username ${auth_player_name} --owner ${auth_player_name}" }

/-- A legacy manifest whose template has two spaces in a row and a tab. -/
def wideSpaced : Manifest :=
  { bareManifest "1.12.2" with
    mainClass := some "net.minecraft.launchwrapper.Launch"
    minecraftArguments := some "--username ${auth_player_name}  --version\t${version_name}" }

/-- The manifest of `1.20.1` with its client download and asset index. -/
def installedManifest : Manifest :=
  { baseManifest with
    assetIndex := some { id := some "5", url := some "https://piston-meta.mojang.com/5.json" }
    clientUrl := some "https://piston-data.mojang.com/1.20.1/client.jar" }

/-- The asset index `5`: one object. -/
def oneAsset : List (String × AssetObject) := [("icons/icon_16x16.png", { hash := "bdf48ef6" })]

/-- A game directory that already holds every file of `1.20.1`. -/
def installedEnv : Env :=
  fixedEnv
    ["/mc/versions/1.20.1/1.20.1.json",
     "/mc/versions/1.20.1/1.20.1.jar",
     "/mc/libraries/com/mojang/brigadier/1.1.8/brigadier-1.1.8.jar",
     "/mc/assets/indexes/5.json",
     "/mc/assets/objects/bd/bdf48ef6"]
    [("/mc/versions/1.20.1/1.20.1.json", installedManifest)]

/-- A host without network: every request fails; the asset index `5` is on
disk. -/
def offlineWorld : World :=
  { get := fun _ => { progress := [], ok := false }
    basename := fun p => String.mk ((splitChars '/' p.data).getLast?.getD [])
    readIndex := fun p => if p = "/mc/assets/indexes/5.json" then some oneAsset else none
    fetchIndex := fun _ => none
    fetchVersion := fun _ => none
    loaderVersions := none
    fetchProfile := fun _ => none
    catalog := none }

/-- An empty game directory. -/
def emptyEnv : Env := fixedEnv [] []

/-- The profile the Fabric metadata service returns for `1.20.1`. -/
def fabricProfile : Manifest :=
  { bareManifest "fabric-loader-0.15.0-1.20.1" with
    inheritsFrom := some "1.20.1"
    mainClass := some "net.fabricmc.loader.impl.launch.knot.KnotClient"
    arguments := some [("game", Json.arr []), ("jvm", Json.arr [])]
    libraries := some [] }

/-- A host whose every request succeeds, without `content-length` on the
streams. -/
def onlineWorld : World :=
  { get := fun _ => { progress := [], ok := true }
    basename := fun p => String.mk ((splitChars '/' p.data).getLast?.getD [])
    readIndex := fun _ => none
    fetchIndex := fun _ => some oneAsset
    fetchVersion := fun _ => some installedManifest
    loaderVersions := some [{ version := "0.15.1-beta", stable := false },
                            { version := "0.15.0", stable := true }]
    fetchProfile := fun _ => some fabricProfile
    catalog := some [remoteEntry "1.20.1"] }

/-- The legacy template of the `1.8.9` manifest. -/
def legacyTemplate189 : String :=
  "--username ${auth_player_name} --version ${version_name} --gameDir ${game_directory} " ++
  "--assetsDir ${assets_root} --assetIndex ${assets_index_name} --uuid ${auth_uuid} " ++
  "--accessToken ${auth_access_token} --userProperties ${user_properties} --userType ${user_type}"

/-- The manifest of `1.8.9`, in the legacy shape only. -/
def legacy189 : Manifest :=
  { bareManifest "1.8.9" with
    mainClass := some "net.minecraft.client.main.Main"
    assets := some "1.8"
    minecraftArguments := some legacyTemplate189 }

/-- A host on which the request for the brigadier library fails and every
other request succeeds. -/
def flakyWorld : World :=
  { onlineWorld with
    get := fun url =>
      { progress := []
        ok := url != "https://libraries.minecraft.net/com/mojang/brigadier/1.1.8/brigadier-1.1.8.jar" } }

/-- Two libraries, the first of which is brigadier. -/
def twoLibraries : List Library :=
  [artifactLibrary "com.mojang:brigadier:1.1.8" "com/mojang/brigadier/1.1.8/brigadier-1.1.8.jar",
   artifactLibrary "com.mojang:logging:1.1.1" "com/mojang/logging/1.1.1/logging-1.1.1.jar"]

/-- A game directory in which the manifest of the overlay
`fabric-loader-0.15.0-1.20.1` names the overlay itself as its base. -/
def loopEnv : Env :=
  fixedEnv
    ["/mc/versions/fabric-loader-0.15.0-1.20.1/fabric-loader-0.15.0-1.20.1.json"]
    [("/mc/versions/fabric-loader-0.15.0-1.20.1/fabric-loader-0.15.0-1.20.1.json", selfOverlay)]

/-- The effective manifest of `overlayManifest` over `baseManifest`. -/
def resolvedOverlay : Manifest :=
  { bareManifest "fabric-loader-0.15.0-1.20.1" with
    mainClass := some "net.fabricmc.loader.impl.launch.knot.KnotClient"
    arguments := some (mergeArguments baseManifest.arguments overlayManifest.arguments)
    libraries := some (baseManifest.libraries.getD [] ++ overlayManifest.libraries.getD []) }

/-- An overlay of `1.12.2` in the legacy shape only, with its own template. -/
def legacyOverlay : Manifest :=
  { bareManifest "fabric-loader-0.15.0-1.12.2" with
    inheritsFrom := some "1.12.2"
    minecraftArguments := some "--username ${auth_player_name} --tweakClass ${version_type}" }

/-- A legacy base `1.12.2` with an empty `arguments` object. -/
def protoBase : Manifest :=
  { legacyBase with arguments := some [] }

/-- A legacy overlay of `1.12.2` whose `arguments` object has the one key
`__proto__`. -/
def protoOverlay : Manifest :=
  { legacyOverlay with
    arguments := some [("__proto__", Json.obj [("game", Json.arr [Json.str "--demo"])])] }

/-- An installation holding `protoBase` as the manifest of `1.12.2`. -/
def protoEnv : Env := fixedEnv [] [("/mc/versions/1.12.2/1.12.2.json", protoBase)]

/-- A game directory whose `versions` folder lists the installed `1.20.1`, an
installed Fabric overlay and a plain file. -/
def scanEnv : Env :=
  { fixedEnv ["/mc/versions/1.20.1/1.20.1.json",
        "/mc/versions/fabric-loader-0.15.0-1.20.1/fabric-loader-0.15.0-1.20.1.json"]
      [("/mc/versions/1.20.1/1.20.1.json", baseManifest),
        ("/mc/versions/fabric-loader-0.15.0-1.20.1/fabric-loader-0.15.0-1.20.1.json",
          overlayManifest)] with
    readdir := fun p =>
      if p = "/mc/versions" then
        some ["1.20.1", "fabric-loader-0.15.0-1.20.1", "launcher_profiles.json"]
      else none
    isDirectory := fun p =>
      if p = "/mc/versions/launcher_profiles.json" then some false
      else if p = "/mc/versions/1.20.1" ∨ p = "/mc/versions/fabric-loader-0.15.0-1.20.1" then
        some true
      else none }

/-- The entry `getLocalVersions` builds in `scanEnv` for a manifest without
`type` and `releaseTime`. -/
def scannedEntry (id : String) (fabric : Bool) : CatalogEntry :=
  { id := id, type := "release", releaseTime := "2026-01-01T00:00:00.000Z", url := "",
    isLocal := some true, isFabric := some fabric }

/-- An asset index of 31 objects with pairwise distinct hashes. -/
def manyAssets : List (String × AssetObject) :=
  (List.range 31).map (fun i =>
    ("minecraft/sounds/" ++ String.mk (List.replicate (i + 1) 'a') ++ ".ogg",
      { hash := String.mk (List.replicate (i + 2) 'a') }))

/-- A host whose every request succeeds and whose asset index is
`manyAssets`. -/
def bulkWorld : World :=
  { onlineWorld with fetchIndex := fun _ => some manyAssets }

/-- The host `bulkWorld` with one failing transfer, that of the first object
of `manyAssets`. -/
def lossyWorld : World :=
  { bulkWorld with
    get := fun url =>
      { progress := []
        ok := url != "https://resources.download.minecraft.net/aa/aa" } }

/-- A library with a download artifact whose only rule allows it on osx. -/
def macOnlyLibrary : Library :=
  { artifactLibrary "ca.weblite:java-objc-bridge:1.1"
      "ca/weblite/java-objc-bridge/1.1/java-objc-bridge-1.1.jar"
    with rules := some [osRule "allow" "osx"] }

/-- A library with a download artifact and an empty `rules` list. -/
def emptyRulesLibrary : Library :=
  { artifactLibrary "net.fabricmc:intermediary:1.20.1"
      "net/fabricmc/intermediary/1.20.1/intermediary-1.20.1.jar"
    with rules := some [] }

/-- The manifest of `1.20.1` listing brigadier and the two libraries that
their rules exclude. -/
def rulesManifest : Manifest :=
  { installedManifest with
    libraries := some ([artifactLibrary "com.mojang:brigadier:1.1.8"
      "com/mojang/brigadier/1.1.8/brigadier-1.1.8.jar"] ++ macOnlyLibrary :: [emptyRulesLibrary]) }

/-- The Fabric profile for `1.20.1` listing the two libraries that their
rules exclude. -/
def rulesProfile : Manifest :=
  { fabricProfile with libraries := some [macOnlyLibrary, emptyRulesLibrary] }

/-- A host whose every request succeeds and which serves `rulesManifest` and
`rulesProfile`. -/
def rulesWorld : World :=
  { onlineWorld with
    fetchVersion := fun _ => some rulesManifest
    fetchProfile := fun _ => some rulesProfile }

/-! ## Theorems: checkLibraryRules -/

theorem lastWhere_append_singleton {α : Type} (p : α → Bool) (xs : List α) (x : α) :
    lastWhere p (xs ++ [x]) = if p x then some x else lastWhere p xs := by
  simp [lastWhere, List.find?_cons]
  cases p x <;> simp

theorem ruleStep_eq (allowed : Bool) (r : Rule) :
    ruleStep allowed r = if r.applicable then r.allows else allowed := by
  unfold ruleStep Rule.applicable Rule.allows
  cases h : r.os with
  | none => simp
  | some os => by_cases hw : os.name = some "windows" <;> simp [hw]

/-- The loop of `checkLibraryRules` ends with the action of the last
applicable rule, or with its initial value when no rule is applicable. -/
theorem foldl_ruleStep (rules : List Rule) (init : Bool) :
    rules.foldl ruleStep init =
      match lastWhere Rule.applicable rules with
      | some r => r.allows
      | none => init := by
  induction rules using List.reverseRecOn with
  | nil => simp [lastWhere]
  | append_singleton xs x ih =>
    rw [List.foldl_append, lastWhere_append_singleton]
    simp only [List.foldl_cons, List.foldl_nil, ruleStep_eq, ih]
    cases x.applicable <;> simp

theorem lastWhere_eq_none {α : Type} (p : α → Bool) (xs : List α) :
    lastWhere p xs = none ↔ ∀ x ∈ xs, p x = false := by
  simp [lastWhere]

theorem lastWhere_split {α : Type} (p : α → Bool) (pre post : List α) (x : α)
    (hx : p x = true) (hpost : ∀ y ∈ post, p y = false) :
    lastWhere p (pre ++ x :: post) = some x := by
  induction post using List.reverseRecOn with
  | nil => rw [lastWhere_append_singleton]; simp [hx]
  | append_singleton ys y ih =>
    have hy : p y = false := hpost y (by simp)
    have : pre ++ x :: (ys ++ [y]) = (pre ++ x :: ys) ++ [y] := by simp
    rw [this, lastWhere_append_singleton, hy]
    simpa using ih (fun z hz => hpost z (by simp [hz]))

theorem lastWhere_eq_some {α : Type} (p : α → Bool) (xs : List α) (x : α)
    (h : lastWhere p xs = some x) :
    ∃ pre post, xs = pre ++ x :: post ∧ p x = true ∧ ∀ y ∈ post, p y = false := by
  induction xs using List.reverseRecOn with
  | nil => simp [lastWhere] at h
  | append_singleton ys y ih =>
    rw [lastWhere_append_singleton] at h
    by_cases hy : p y = true
    · simp [hy] at h
      subst h
      exact ⟨ys, [], by simp, hy, by simp⟩
    · simp [hy] at h
      obtain ⟨pre, post, hxs, hpx, hpost⟩ := ih h
      refine ⟨pre, post ++ [y], by simp [hxs], hpx, ?_⟩
      intro z hz
      rcases List.mem_append.mp hz with hz | hz
      · exact hpost z hz
      · simp at hz; subst hz; simpa using hy

theorem lastWhere_congr {α : Type} (p q : α → Bool) (xs : List α)
    (h : ∀ x ∈ xs, p x = q x) : lastWhere p xs = lastWhere q xs := by
  induction xs using List.reverseRecOn with
  | nil => rfl
  | append_singleton ys y ih =>
    rw [lastWhere_append_singleton, lastWhere_append_singleton, h y (by simp),
      ih (fun x hx => h x (by simp [hx]))]

theorem lastWhere_filter {α : Type} (p : α → Bool) (xs : List α) :
    lastWhere p (xs.filter p) = lastWhere p xs := by
  induction xs using List.reverseRecOn with
  | nil => rfl
  | append_singleton ys y ih =>
    rw [List.filter_append, lastWhere_append_singleton]
    by_cases hy : p y = true
    · simp [List.filter_cons, hy, lastWhere_append_singleton]
    · simp [List.filter_cons, hy, ih]

theorem lastWhere_remove {α : Type} (p : α → Bool) (pre post : List α) (x : α)
    (hx : p x = false) : lastWhere p (pre ++ x :: post) = lastWhere p (pre ++ post) := by
  induction post using List.reverseRecOn with
  | nil => simp [lastWhere_append_singleton, hx]
  | append_singleton ys y ih =>
    have h1 : pre ++ x :: (ys ++ [y]) = (pre ++ x :: ys) ++ [y] := by simp
    have h2 : pre ++ (ys ++ [y]) = (pre ++ ys) ++ [y] := by simp
    rw [h1, h2, lastWhere_append_singleton, lastWhere_append_singleton, ih]

theorem applicable_eq (r : Rule) : r.applicable = (r.noOs || r.namesWindows) := by
  unfold Rule.applicable Rule.noOs Rule.namesWindows
  cases r.os <;> simp

/-- C1 (as stated, refuted): with rules `[allow on windows, disallow
everywhere]` the last rule naming windows has action allow, yet
`checkLibraryRules` answers false: the later rule without `os` overrides it. -/
theorem checkLibraryRules_last_windows_rule_overridden :
    (lastWhere Rule.namesWindows overrideRules).map Rule.allows = some true ∧
      checkLibraryRules (ruleLibrary (some overrideRules)) = false := by
  constructor <;> decide

/-- C1 (amended): when the rules list is present, `checkLibraryRules` returns
the action (allow = true, anything else = false) of the last rule that either
has no `os` or names windows, and false when there is no such rule. Hence the
last rule naming windows decides whenever no applicable rule follows it, and
when no rule names windows the last rule without `os` decides. -/
theorem checkLibraryRules_last_applicable (library : Library) (rules : List Rule)
    (h : library.rules = some rules) :
    (checkLibraryRules library =
        match lastWhere Rule.applicable rules with
        | some r => r.allows
        | none => false) ∧
      (∀ pre w post, rules = pre ++ w :: post → w.namesWindows = true →
        (∀ r ∈ post, r.applicable = false) → checkLibraryRules library = w.allows) ∧
      ((∀ r ∈ rules, r.namesWindows = false) →
        checkLibraryRules library =
          match lastWhere Rule.noOs rules with
          | some r => r.allows
          | none => false) := by
  have hfold : checkLibraryRules library =
      match lastWhere Rule.applicable rules with
      | some r => r.allows
      | none => false := by
    simp only [checkLibraryRules, h]
    exact foldl_ruleStep rules false
  refine ⟨hfold, ?_, ?_⟩
  · intro pre w post hrules hw hpost
    have happ : w.applicable = true := by rw [applicable_eq, hw]; simp
    rw [hfold, hrules, lastWhere_split Rule.applicable pre post w happ hpost]
  · intro hnone
    rw [hfold, lastWhere_congr Rule.applicable Rule.noOs rules]
    intro r hr
    rw [applicable_eq, hnone r hr]
    simp

/-- C1 (amended) at the rules `[allow on windows, disallow everywhere]`. -/
theorem checkLibraryRules_last_applicable_witness :
    (ruleLibrary (some overrideRules)).rules = some overrideRules ∧
      checkLibraryRules (ruleLibrary (some overrideRules)) =
        match lastWhere Rule.applicable overrideRules with
        | some r => r.allows
        | none => false :=
  ⟨rfl, (checkLibraryRules_last_applicable (ruleLibrary (some overrideRules)) overrideRules rfl).1⟩

/-- C2: `checkLibraryRules` is the left fold of `ruleStep` over the whole rule
list; its result is true exactly when some applicable rule (no `os`, or
`os.name` equal to windows) has action allow and no applicable rule follows
it; and deleting a rule whose `os` names another platform, or all of them,
leaves the result unchanged. -/
theorem checkLibraryRules_fold_last_wins (library : Library) (rules : List Rule)
    (h : library.rules = some rules) :
    checkLibraryRules library = rules.foldl ruleStep false ∧
      (checkLibraryRules library = true ↔
        ∃ pre r post, rules = pre ++ r :: post ∧ r.applicable = true ∧
          (∀ x ∈ post, x.applicable = false) ∧ r.action = "allow") ∧
      (∀ pre r post, rules = pre ++ r :: post → r.applicable = false →
        checkLibraryRules library =
          checkLibraryRules { library with rules := some (pre ++ post) }) ∧
      checkLibraryRules library =
        checkLibraryRules { library with rules := some (rules.filter Rule.applicable) } := by
  have hfold : ∀ rs : List Rule, checkLibraryRules { library with rules := some rs } =
      match lastWhere Rule.applicable rs with
      | some r => r.allows
      | none => false := by
    intro rs
    simp only [checkLibraryRules]
    exact foldl_ruleStep rs false
  have hlib : checkLibraryRules library =
      match lastWhere Rule.applicable rules with
      | some r => r.allows
      | none => false := by
    simp only [checkLibraryRules, h]
    exact foldl_ruleStep rules false
  refine ⟨by simp only [checkLibraryRules, h], ?_, ?_, ?_⟩
  · rw [hlib]
    constructor
    · intro htrue
      cases hl : lastWhere Rule.applicable rules with
      | none => simp [hl] at htrue
      | some r =>
        simp only [hl] at htrue
        obtain ⟨pre, post, hrules, hr, hpost⟩ := lastWhere_eq_some _ _ _ hl
        refine ⟨pre, r, post, hrules, hr, hpost, ?_⟩
        simpa [Rule.allows] using htrue
    · rintro ⟨pre, r, post, hrules, hr, hpost, hact⟩
      rw [hrules, lastWhere_split Rule.applicable pre post r hr hpost]
      simp [Rule.allows, hact]
  · intro pre r post hrules hr
    rw [hlib, hfold, hrules, lastWhere_remove Rule.applicable pre post r hr]
  · rw [hlib, hfold, lastWhere_filter]

/-- C2 at the rules `[allow everywhere, disallow on osx]`. -/
theorem checkLibraryRules_fold_last_wins_witness :
    (ruleLibrary (some osxRules)).rules = some osxRules ∧
      (checkLibraryRules (ruleLibrary (some osxRules)) = true ↔
        ∃ pre r post, osxRules = pre ++ r :: post ∧ r.applicable = true ∧
          (∀ x ∈ post, x.applicable = false) ∧ r.action = "allow") :=
  ⟨rfl, (checkLibraryRules_fold_last_wins (ruleLibrary (some osxRules)) osxRules rfl).2.1⟩

/-- C3: a library without a `rules` field is included, whatever its other
fields are. -/
theorem checkLibraryRules_no_rules (library : Library) (h : library.rules = none) :
    checkLibraryRules library = true := by
  simp [checkLibraryRules, h]

/-- C3 at a library without rules. -/
theorem checkLibraryRules_no_rules_witness :
    (ruleLibrary none).rules = none ∧ checkLibraryRules (ruleLibrary none) = true :=
  ⟨rfl, checkLibraryRules_no_rules (ruleLibrary none) rfl⟩

/-! ## Theorems: getVersions -/

theorem find_isSome_iff_mem_ids (entries : List CatalogEntry) (id : String) :
    (entries.find? (fun v => v.id == id)).isSome = true ↔ id ∈ catalogIds entries := by
  simp only [List.find?_isSome, catalogIds, List.mem_map, beq_iff_eq]

theorem mergedCatalogSpec_snoc (loc rem : List CatalogEntry) (e : CatalogEntry) :
    mergedCatalogSpec loc (rem ++ [e]) =
      mergedCatalogSpec loc rem ++
        (if e.id ∈ catalogIds loc ∨ e.id ∈ catalogIds rem then [] else [e]) := by
  unfold mergedCatalogSpec
  rw [List.length_append, List.length_singleton, List.range_succ, List.filterMap_append,
    List.append_assoc]
  congr 1
  congr 1
  · apply List.filterMap_congr
    intro i hi
    have hlt : i < rem.length := List.mem_range.mp hi
    rw [List.getElem?_append_left hlt, List.take_append_of_le_length (Nat.le_of_lt hlt)]
  · simp only [List.filterMap_cons, List.filterMap_nil]
    rw [List.getElem?_append_right (Nat.le_refl _)]
    simp only [Nat.sub_self, List.getElem?_cons_zero]
    rw [List.take_append_of_le_length (Nat.le_refl _), List.take_length]
    by_cases h1 : e.id ∈ catalogIds loc <;> by_cases h2 : e.id ∈ catalogIds rem <;>
      simp [h1, h2]

theorem mem_ids_mergedCatalogSpec (loc rem : List CatalogEntry) (id : String) :
    id ∈ catalogIds (mergedCatalogSpec loc rem) ↔ id ∈ catalogIds loc ∨ id ∈ catalogIds rem := by
  induction rem using List.reverseRecOn with
  | nil => simp [mergedCatalogSpec, catalogIds]
  | append_singleton rem e ih =>
    rw [mergedCatalogSpec_snoc]
    by_cases hseen : e.id ∈ catalogIds loc ∨ e.id ∈ catalogIds rem
    · rw [if_pos hseen, List.append_nil, ih]
      simp only [catalogIds, List.map_append, List.mem_append, List.map_cons, List.map_nil,
        List.mem_singleton] at hseen ⊢
      constructor
      · rintro (h | h)
        · exact Or.inl h
        · exact Or.inr (Or.inl h)
      · rintro (h | h | h)
        · exact Or.inl h
        · exact Or.inr h
        · rw [h]; exact hseen
    · rw [if_neg hseen]
      simp only [catalogIds, List.map_append, List.mem_append, List.map_cons, List.map_nil,
        List.mem_singleton] at ih ⊢
      rw [ih]
      tauto

theorem getVersionsLoop_eq_spec (loc rem : List CatalogEntry) :
    getVersionsLoop loc rem = mergedCatalogSpec loc rem := by
  induction rem using List.reverseRecOn with
  | nil => simp [getVersionsLoop, mergedCatalogSpec]
  | append_singleton rem e ih =>
    unfold getVersionsLoop at ih ⊢
    rw [List.foldl_append, ih, mergedCatalogSpec_snoc]
    simp only [List.foldl_cons, List.foldl_nil, mergeStep]
    by_cases hseen : e.id ∈ catalogIds loc ∨ e.id ∈ catalogIds rem
    · have hfind := (find_isSome_iff_mem_ids (mergedCatalogSpec loc rem) e.id).mpr
        ((mem_ids_mergedCatalogSpec loc rem e.id).mpr hseen)
      simp [hfind, hseen]
    · have hfind : ¬ (List.find? (fun v => v.id == e.id) (mergedCatalogSpec loc rem)).isSome
          = true := by
        intro hc
        exact hseen ((mem_ids_mergedCatalogSpec loc rem e.id).mp
          ((find_isSome_iff_mem_ids _ _).mp hc))
      rw [if_neg hfind, if_neg hseen]

theorem nodup_ids_mergedCatalogSpec (loc rem : List CatalogEntry)
    (hloc : (catalogIds loc).Nodup) : (catalogIds (mergedCatalogSpec loc rem)).Nodup := by
  induction rem using List.reverseRecOn with
  | nil => simpa [mergedCatalogSpec] using hloc
  | append_singleton rem e ih =>
    rw [mergedCatalogSpec_snoc]
    by_cases hseen : e.id ∈ catalogIds loc ∨ e.id ∈ catalogIds rem
    · simpa [hseen] using ih
    · rw [if_neg hseen]
      have hnot : e.id ∉ catalogIds (mergedCatalogSpec loc rem) := fun hc =>
        hseen ((mem_ids_mergedCatalogSpec loc rem e.id).mp hc)
      unfold catalogIds at ih hnot ⊢
      rw [List.map_append, List.nodup_append]
      refine ⟨ih, by simp, ?_⟩
      intro a ha hb
      simp only [List.map_cons, List.map_nil, List.mem_singleton] at hb
      exact hnot (hb ▸ ha)

/-- An entry of the merged catalog whose id is a local id is a local entry. -/
theorem mem_loc_of_mem_spec (loc rem : List CatalogEntry) (e : CatalogEntry)
    (he : e ∈ mergedCatalogSpec loc rem) (hid : e.id ∈ catalogIds loc) : e ∈ loc := by
  unfold mergedCatalogSpec at he
  rcases List.mem_append.mp he with h | h
  · exact h
  · exfalso
    rw [List.mem_filterMap] at h
    obtain ⟨i, _, hi⟩ := h
    cases hget : rem[i]? with
    | none => simp [hget] at hi
    | some x =>
      simp only [hget] at hi
      by_cases hc : x.id ∉ catalogIds loc ∧ x.id ∉ catalogIds (List.take i rem)
      · rw [if_pos hc] at hi
        have hx : x = e := Option.some.inj hi
        exact hc.1 (hx ▸ hid)
      · rw [if_neg hc] at hi
        cases hi

theorem localStep_isLocal (env : Env) (versionsDir : String) (acc : List CatalogEntry)
    (dir : String) (hacc : ∀ e ∈ acc, e.isLocal = some true) :
    ∀ e ∈ localStep env versionsDir acc dir, e.isLocal = some true := by
  unfold localStep
  simp only
  split
  · split
    · split
      · intro e he
        rcases List.mem_append.mp he with h | h
        · exact hacc e h
        · simp only [List.mem_singleton] at h
          rw [h]
      · exact hacc
    · exact hacc
  · exact hacc

/-- Every entry built by `getLocalVersions` carries `isLocal = true`. -/
theorem getLocalVersions_isLocal (env : Env) :
    ∀ e ∈ getLocalVersions env, e.isLocal = some true := by
  unfold getLocalVersions
  simp only
  split
  · simp
  · rename_i dirs _
    suffices h : ∀ (ds : List String) (acc : List CatalogEntry),
        (∀ e ∈ acc, e.isLocal = some true) →
        ∀ e ∈ ds.foldl (localStep env (env.join [env.gameDir, "versions"])) acc,
          e.isLocal = some true from h dirs [] (by simp)
    intro ds
    induction ds with
    | nil => intro acc hacc; simpa using hacc
    | cons d ds ih =>
      intro acc hacc
      simp only [List.foldl_cons]
      exact ih _ (localStep_isLocal env _ acc d hacc)

theorem catalogIds_localStep (env : Env) (versionsDir : String) (acc : List CatalogEntry)
    (dir : String) :
    catalogIds (localStep env versionsDir acc dir) = catalogIds acc ∨
      catalogIds (localStep env versionsDir acc dir) = catalogIds acc ++ [dir] := by
  unfold localStep
  simp only
  split
  · split
    · split
      · right
        simp [catalogIds]
      · left; rfl
    · left; rfl
  · left; rfl

theorem catalogIds_foldl_localStep (env : Env) (versionsDir : String) (dirs : List String) :
    ∀ acc : List CatalogEntry, ∃ kept : List String, kept.Sublist dirs ∧
      catalogIds (dirs.foldl (localStep env versionsDir) acc) = catalogIds acc ++ kept := by
  induction dirs with
  | nil => intro acc; exact ⟨[], List.Sublist.refl _, by simp⟩
  | cons d ds ih =>
    intro acc
    obtain ⟨kept, hsub, heq⟩ := ih (localStep env versionsDir acc d)
    simp only [List.foldl_cons]
    rcases catalogIds_localStep env versionsDir acc d with h | h
    · exact ⟨kept, List.Sublist.cons d hsub, by rw [heq, h]⟩
    · exact ⟨d :: kept, List.Sublist.cons₂ d hsub, by rw [heq, h]; simp⟩

/-- The ids of the local entries are names of the scanned directory, in its
order, so they are pairwise distinct when the directory names are. -/
theorem getLocalVersions_ids_nodup (env : Env) (dirs : List String)
    (hdirs : env.readdir (env.join [env.gameDir, "versions"]) = some dirs)
    (hnodup : dirs.Nodup) : (catalogIds (getLocalVersions env)).Nodup := by
  unfold getLocalVersions
  simp only [hdirs]
  obtain ⟨kept, hsub, heq⟩ :=
    catalogIds_foldl_localStep env (env.join [env.gameDir, "versions"]) dirs []
  rw [heq]
  simpa [catalogIds] using hnodup.sublist hsub

/-- C4: the catalog returned by `getVersions` is the local entries, those that
`getLocalVersions` builds from the versions directory, in their order
followed, in remote order, by each remote entry whose id occurs neither among
the local entries nor earlier in the remote list. Every local entry carries
`isLocal = true`. When the local ids are pairwise distinct, as they are when
the names in the versions directory are, every id of either list occurs
exactly once in the catalog, and an id present on both sides belongs to one
entry of the catalog only, a local one with `isLocal = true`. -/
theorem getVersions_merged_catalog (env : Env) (versions : List CatalogEntry) :
    getVersions env versions = mergedCatalogSpec (getLocalVersions env) versions ∧
      (∀ e ∈ getLocalVersions env, e.isLocal = some true) ∧
      (∀ dirs, env.readdir (env.join [env.gameDir, "versions"]) = some dirs → dirs.Nodup →
        (catalogIds (getLocalVersions env)).Nodup) ∧
      ((catalogIds (getLocalVersions env)).Nodup →
        (∀ id, id ∈ catalogIds (getLocalVersions env) ∨ id ∈ catalogIds versions →
          (catalogIds (getVersions env versions)).count id = 1) ∧
        (∀ id, id ∈ catalogIds (getLocalVersions env) → id ∈ catalogIds versions →
          ∃ e, e ∈ getLocalVersions env ∧ e.id = id ∧ e.isLocal = some true ∧
            (getVersions env versions).find? (fun v => v.id == id) = some e ∧
            ∀ x, x ∈ getVersions env versions → x.id = id → x = e)) := by
  have hspec : getVersions env versions = mergedCatalogSpec (getLocalVersions env) versions :=
    getVersionsLoop_eq_spec (getLocalVersions env) versions
  refine ⟨hspec, getLocalVersions_isLocal env, getLocalVersions_ids_nodup env, ?_⟩
  intro hnodup
  rw [hspec]
  refine ⟨?_, ?_⟩
  · intro id hid
    exact List.count_eq_one_of_mem
      (nodup_ids_mergedCatalogSpec (getLocalVersions env) versions hnodup)
      ((mem_ids_mergedCatalogSpec (getLocalVersions env) versions id).mpr hid)
  · intro id hloc _
    obtain ⟨e, he, heid⟩ := List.mem_map.mp hloc
    have huniq : ∀ x, x ∈ mergedCatalogSpec (getLocalVersions env) versions → x.id = id →
        x = e := by
      intro x hx hxid
      have hxloc : x ∈ getLocalVersions env :=
        mem_loc_of_mem_spec (getLocalVersions env) versions x hx (hxid ▸ hloc)
      exact List.inj_on_of_nodup_map hnodup hxloc he (hxid.trans heid.symm)
    refine ⟨e, he, heid, getLocalVersions_isLocal env e he, ?_, huniq⟩
    have hsome := (find_isSome_iff_mem_ids (mergedCatalogSpec (getLocalVersions env) versions)
      id).mpr ((mem_ids_mergedCatalogSpec (getLocalVersions env) versions id).mpr (Or.inl hloc))
    obtain ⟨y, hy⟩ := Option.isSome_iff_exists.mp hsome
    have hyid : y.id = id := by simpa using List.find?_some hy
    rw [hy, huniq y (List.mem_of_find?_eq_some hy) hyid]

/-- C4 at the scenario of the specification: the versions directory holds
`1.20.1`, a Fabric overlay and a plain file; the remote list names `1.20.2`,
`1.20.1` and `1.20.2` again. The catalog is the two local entries and one
remote `1.20.2`; the id `1.20.1` belongs to the local entry alone. -/
theorem getVersions_merged_catalog_witness :
    getVersions scanEnv [remoteEntry "1.20.2", remoteEntry "1.20.1", remoteEntry "1.20.2"] =
        [scannedEntry "1.20.1" false, scannedEntry "fabric-loader-0.15.0-1.20.1" true,
          remoteEntry "1.20.2"] ∧
      (catalogIds (getLocalVersions scanEnv)).Nodup ∧
      ∃ e, e ∈ getLocalVersions scanEnv ∧ e.id = "1.20.1" ∧ e.isLocal = some true ∧
        (getVersions scanEnv [remoteEntry "1.20.2", remoteEntry "1.20.1", remoteEntry "1.20.2"]).find?
          (fun v => v.id == "1.20.1") = some e ∧
        ∀ x, x ∈ getVersions scanEnv
            [remoteEntry "1.20.2", remoteEntry "1.20.1", remoteEntry "1.20.2"] →
          x.id = "1.20.1" → x = e :=
  have hlocal : getLocalVersions scanEnv =
      [scannedEntry "1.20.1" false, scannedEntry "fabric-loader-0.15.0-1.20.1" true] := rfl
  have hnodup : (catalogIds (getLocalVersions scanEnv)).Nodup := by
    rw [hlocal]
    decide
  ⟨rfl, hnodup,
    ((getVersions_merged_catalog scanEnv
      [remoteEntry "1.20.2", remoteEntry "1.20.1", remoteEntry "1.20.2"]).2.2.2 hnodup).2 "1.20.1"
      (by rw [hlocal]; decide) (by decide)⟩

/-! ## Theorems: mergeArguments -/

theorem objGet_objSet (o : List (String × Json)) (k k' : String) (v : Json) :
    objGet (objSet o k v) k' = if k = k' then some v else objGet o k' := by
  induction o with
  | nil => simp [objSet, objGet]
  | cons kv rest ih =>
    obtain ⟨a, b⟩ := kv
    by_cases hak : a = k
    · subst hak
      by_cases hk : a = k' <;> simp [objSet, objGet, hk]
    · by_cases hk : k = k'
      · subst hk
        simp [objSet, objGet, hak, ih]
      · by_cases hak' : a = k'
        · subst hak'
          simp [objSet, objGet, hak, hk]
        · simp [objSet, objGet, hak, hak', ih, hk]

theorem objGet_isSome_iff (o : List (String × Json)) (k : String) :
    (objGet o k).isSome = true ↔ k ∈ objKeys o := by
  induction o with
  | nil => simp [objGet, objKeys]
  | cons kv rest ih =>
    obtain ⟨a, b⟩ := kv
    by_cases hak : a = k
    · simp [objGet, objKeys, hak]
    · have hka : ¬ k = a := fun h => hak h.symm
      simpa [objGet, objKeys, hak, hka] using ih

theorem own_assignKey_proto (o : MergedObject) (v : Json)
    (hown : objGet o.own "__proto__" = none) : (assignKey o "__proto__" v).own = o.own := by
  unfold assignKey
  rw [hown]
  cases v <;> rfl

theorem objGet_assignKey (o : MergedObject) (key k : String) (v : Json) :
    objGet (assignKey o key v).own k =
      if key = k then
        (if key = "__proto__" ∧ (objGet o.own key).isNone = true then none else some v)
      else objGet o.own k := by
  cases hown : objGet o.own key with
  | some w => simp [assignKey, hown, objGet_objSet]
  | none =>
    by_cases hp : key = "__proto__"
    · subst hp
      rw [own_assignKey_proto o v hown]
      by_cases hk : "__proto__" = k
      · subst hk
        simp [hown]
      · simp [hk]
    · simp [assignKey, hown, hp, objGet_objSet]

theorem proto_assignKey (o : MergedObject) (key : String) (v : Json)
    (h : key ≠ "__proto__") : (assignKey o key v).proto = o.proto := by
  unfold assignKey
  cases objGet o.own key <;> simp [h]

theorem mergeArgStep_eq (base child : List (String × Json)) (merged : MergedObject)
    (key : String) :
    mergeArgStep base child merged key =
      match objGet child key with
      | none => merged
      | some cv => assignKey merged key (mergedValue base cv key) := by
  unfold mergeArgStep mergedValue
  cases objGet child key with
  | none => rfl
  | some cv =>
    simp only
    split <;> simp_all

theorem objGet_mergeArgStep (base child : List (String × Json)) (merged : MergedObject)
    (key k : String) :
    objGet (mergeArgStep base child merged key).own k =
      if key = k then
        match objGet child k with
        | some cv =>
          if k = "__proto__" ∧ (objGet merged.own k).isNone = true then none
          else some (mergedValue base cv k)
        | none => objGet merged.own k
      else objGet merged.own k := by
  rw [mergeArgStep_eq]
  by_cases hk : key = k
  · subst hk
    cases hc : objGet child key with
    | none => simp
    | some cv => simp [objGet_assignKey]
  · cases hc : objGet child key with
    | none => simp [hk]
    | some cv => simp [objGet_assignKey, hk]

theorem objGet_foldl_mergeArgStep (base child : List (String × Json)) (keys : List String)
    (k : String) :
    ∀ merged : MergedObject,
      objGet (keys.foldl (mergeArgStep base child) merged).own k =
        match objGet child k with
        | some cv =>
          if k ∈ keys then
            (if k = "__proto__" ∧ (objGet merged.own k).isNone = true then none
             else some (mergedValue base cv k))
          else objGet merged.own k
        | none => objGet merged.own k := by
  induction keys with
  | nil => intro merged; cases objGet child k <;> simp
  | cons key keys ih =>
    intro merged
    rw [List.foldl_cons, ih, objGet_mergeArgStep]
    cases hk : objGet child k with
    | none =>
      simp only
      by_cases hkk : key = k <;> simp [hkk]
    | some cv =>
      simp only
      by_cases hkk : key = k
      · subst hkk
        simp only [eq_self_iff_true, if_true, List.mem_cons, true_or]
        by_cases hmem : key ∈ keys
        · simp only [hmem, if_true]
          by_cases hp : key = "__proto__" ∧ (objGet merged.own key).isNone = true
          · rw [if_pos hp, if_pos ⟨hp.1, rfl⟩]
          · rw [if_neg hp, if_neg (fun hc => by simp at hc)]
        · simp only [hmem, if_false]
      · have hkk2 : ¬ k = key := fun h => hkk h.symm
        simp only [List.mem_cons, hkk2, false_or, if_neg hkk]

/-- Reading an own key of `mergeArguments(base, child)` when both are present. -/
theorem objGet_mergeArguments (base child : List (String × Json)) (k : String) :
    objGet (mergeArguments (some base) (some child)) k =
      match objGet child k with
      | some cv =>
        if k = "__proto__" ∧ (objGet base k).isNone = true then none
        else some (mergedValue base cv k)
      | none => objGet base k := by
  unfold mergeArguments mergeArgumentsObject
  simp only
  rw [objGet_foldl_mergeArgStep]
  cases hk : objGet child k with
  | none => rfl
  | some cv =>
    have hmem : k ∈ objKeys child := (objGet_isSome_iff child k).mp (by simp [hk])
    unfold objKeys at hmem
    simp [hmem]

/-- The prototype of `mergeArguments(base, child)` stays `Object.prototype`
when `child` has no key `__proto__`. -/
theorem mergeArgumentsProto_of_no_proto_key (base child : Option (List (String × Json)))
    (h : ∀ c, child = some c → objGet c "__proto__" = none) :
    mergeArgumentsProto base child = none := by
  unfold mergeArgumentsProto mergeArgumentsObject
  cases base with
  | none => cases child <;> rfl
  | some b =>
    cases child with
    | none => rfl
    | some c =>
      have hc := h c rfl
      simp only
      suffices hfold : ∀ (keys : List String) (merged : MergedObject),
          (keys.foldl (mergeArgStep b c) merged).proto = merged.proto from hfold _ _
      intro keys
      induction keys with
      | nil => intro merged; rfl
      | cons key keys ih =>
        intro merged
        rw [List.foldl_cons, ih, mergeArgStep_eq]
        cases hk : objGet c key with
        | none => rfl
        | some cv =>
          simp only
          apply proto_assignKey
          intro hp
          rw [hp, hc] at hk
          cases hk

/-- C8 (as stated, refuted): for a child key `__proto__` that `base` does not
have, the assignment at line 516 reaches the prototype setter: the key is not
among the keys of the result, which therefore are not the union, and the
child's value has become the prototype of the result. -/
theorem mergeArguments_proto_key_not_stored :
    "__proto__" ∈ objKeys [("__proto__", Json.obj [("game", Json.arr [Json.str "--demo"])])] ∧
      objKeys (mergeArguments (some [("jvm", Json.arr [])])
        (some [("__proto__", Json.obj [("game", Json.arr [Json.str "--demo"])])])) = ["jvm"] ∧
      mergeArgumentsProto (some [("jvm", Json.arr [])])
        (some [("__proto__", Json.obj [("game", Json.arr [Json.str "--demo"])])]) =
        some (Json.obj [("game", Json.arr [Json.str "--demo"])]) :=
  ⟨by decide, by decide, rfl⟩

/-- C8 (amended): for structured argument specs `base` and `child`, both
present, the own keys of `mergeArguments(base, child)` are the keys of `base`
and the keys of `child` other than `__proto__`; a key that is array-valued in
both maps to the base array followed by the child array; any other key of
`child`, unless it is a `__proto__` that `base` lacks, maps to the child's
value; a key only in `base` keeps the base's value; and a `__proto__` that
`base` lacks is not stored. -/
theorem mergeArguments_keywise (base child : List (String × Json)) :
    (∀ k, k ∈ objKeys (mergeArguments (some base) (some child)) ↔
      k ∈ objKeys base ∨ (k ∈ objKeys child ∧ k ≠ "__proto__")) ∧
    (∀ k b c, objGet base k = some (Json.arr b) → objGet child k = some (Json.arr c) →
      objGet (mergeArguments (some base) (some child)) k = some (Json.arr (b ++ c))) ∧
    (∀ k cv, objGet child k = some cv →
      asArray (some cv) = none ∨ asArray (objGet base k) = none →
      k ≠ "__proto__" ∨ (objGet base k).isSome = true →
      objGet (mergeArguments (some base) (some child)) k = some cv) ∧
    (∀ k, objGet child k = none →
      objGet (mergeArguments (some base) (some child)) k = objGet base k) ∧
    (objGet base "__proto__" = none →
      objGet (mergeArguments (some base) (some child)) "__proto__" = none) := by
  refine ⟨?_, ?_, ?_, ?_, ?_⟩
  · intro k
    rw [← objGet_isSome_iff, ← objGet_isSome_iff, ← objGet_isSome_iff, objGet_mergeArguments]
    cases hc : objGet child k with
    | none => simp
    | some cv =>
      by_cases hp : k = "__proto__"
      · cases hb : objGet base k <;> simp [hp, hb]
      · simp [hp]
  · intro k b c hb hc
    rw [objGet_mergeArguments, hc]
    simp [mergedValue, asArray, hb]
  · intro k cv hc hnot hstored
    rw [objGet_mergeArguments, hc]
    have hcond : ¬ (k = "__proto__" ∧ (objGet base k).isNone = true) := by
      rintro ⟨hp, hb⟩
      rcases hstored with h | h
      · exact h hp
      · cases hbk : objGet base k <;> simp [hbk] at h hb
    simp only [hcond, if_false, mergedValue]
    rcases hnot with h | h
    · rw [h]
    · rw [h]
      split <;> simp_all
  · intro k hc
    rw [objGet_mergeArguments, hc]
  · intro hb
    rw [objGet_mergeArguments]
    cases hc : objGet child "__proto__" <;> simp [hb]

/-- C8 (amended) at the arguments of `1.20.1` and a child with a `game`
array, a scalar `logging` and a key `__proto__`: the `game` arrays are
concatenated and `__proto__` is not stored. -/
theorem mergeArguments_keywise_witness :
    objGet (mergeArguments (some [("game", Json.arr [Json.str "--username"]), ("jvm", Json.arr [])])
        (some [("game", Json.arr [Json.str "--demo"]), ("logging", Json.str "client"),
          ("__proto__", Json.obj [])])) "game" =
        some (Json.arr ([Json.str "--username"] ++ [Json.str "--demo"])) ∧
      objGet (mergeArguments (some [("game", Json.arr [Json.str "--username"]), ("jvm", Json.arr [])])
        (some [("game", Json.arr [Json.str "--demo"]), ("logging", Json.str "client"),
          ("__proto__", Json.obj [])])) "__proto__" = none ∧
      objKeys (mergeArguments (some [("game", Json.arr [Json.str "--username"]), ("jvm", Json.arr [])])
        (some [("game", Json.arr [Json.str "--demo"]), ("logging", Json.str "client"),
          ("__proto__", Json.obj [])])) = ["game", "jvm", "logging"] :=
  ⟨(mergeArguments_keywise [("game", Json.arr [Json.str "--username"]), ("jvm", Json.arr [])]
      [("game", Json.arr [Json.str "--demo"]), ("logging", Json.str "client"),
        ("__proto__", Json.obj [])]).2.1 "game" _ _ rfl rfl,
    (mergeArguments_keywise [("game", Json.arr [Json.str "--username"]), ("jvm", Json.arr [])]
      [("game", Json.arr [Json.str "--demo"]), ("logging", Json.str "client"),
        ("__proto__", Json.obj [])]).2.2.2.2 rfl,
    by decide⟩

/-! ## Theorems: resolveVersion -/

/-- The manifest `resolveVersion` builds for an overlay over `baseData`
(lines 492-500). -/
theorem resolveVersion_overlay_eq (env : Env) (overlay base : Manifest) (inh : String)
    (hinh : overlay.inheritsFrom = some inh) (hne : inh ≠ "")
    (hbase : env.readManifest (env.join [env.gameDir, "versions", inh, inh ++ ".json"])
      = some base) :
    resolveVersion env overlay =
      Except.ok
        { id := overlay.id
          type := none
          releaseTime := none
          inheritsFrom := none
          mainClass := orStr overlay.mainClass base.mainClass
          arguments := some (mergeArguments base.arguments overlay.arguments)
          libraries := some ((base.libraries.getD []) ++ (overlay.libraries.getD []))
          assetIndex := orObj overlay.assetIndex base.assetIndex
          assets := orStr overlay.assets base.assets
          minecraftArguments := orStr overlay.minecraftArguments base.minecraftArguments
          argumentsProto := argumentsPrototype base overlay } := by
  unfold resolveVersion
  simp [hinh, truthyStr, hne, hbase]

theorem truthyStr_orStr (a b : Option String) :
    truthyStr (orStr a b) = (truthyStr a || truthyStr b) := by
  unfold orStr
  cases h : truthyStr a <;> simp [h]

/-- C5: for an overlay with `inheritsFrom` set and an installed base manifest,
`resolveVersion` returns a manifest with the overlay's id, with the overlay's
`mainClass` when the overlay declares one (a non-empty string) and the base's
otherwise, and with libraries equal to the base libraries followed by the
overlay libraries, hence of length base count plus overlay count. -/
theorem resolveVersion_overlay_merge (env : Env) (overlay base : Manifest) (inh : String)
    (hinh : overlay.inheritsFrom = some inh) (hne : inh ≠ "")
    (hbase : env.readManifest (env.join [env.gameDir, "versions", inh, inh ++ ".json"])
      = some base) :
    ∃ r, resolveVersion env overlay = Except.ok r ∧
      r.id = overlay.id ∧
      (∀ c, overlay.mainClass = some c → c ≠ "" → r.mainClass = some c) ∧
      (truthyStr overlay.mainClass = false → r.mainClass = base.mainClass) ∧
      r.libraries = some (base.libraries.getD [] ++ overlay.libraries.getD []) ∧
      (r.libraries.getD []).length =
        (base.libraries.getD []).length + (overlay.libraries.getD []).length := by
  refine ⟨_, resolveVersion_overlay_eq env overlay base inh hinh hne hbase, rfl, ?_, ?_, rfl, ?_⟩
  · intro c hc hcne
    simp [orStr, truthyStr, hc, hcne]
  · intro hfalse
    simp [orStr, hfalse]
  · simp

/-- C5 at the scenario of the specification: `fabric-loader-0.15.0-1.20.1`
over an installed `1.20.1`. -/
theorem resolveVersion_overlay_merge_witness :
    ∃ r, resolveVersion overlayEnv overlayManifest = Except.ok r ∧
      r.id = overlayManifest.id ∧
      (∀ c, overlayManifest.mainClass = some c → c ≠ "" → r.mainClass = some c) ∧
      (truthyStr overlayManifest.mainClass = false → r.mainClass = baseManifest.mainClass) ∧
      r.libraries = some (baseManifest.libraries.getD [] ++ overlayManifest.libraries.getD []) ∧
      (r.libraries.getD []).length =
        (baseManifest.libraries.getD []).length + (overlayManifest.libraries.getD []).length :=
  resolveVersion_overlay_merge overlayEnv overlayManifest baseManifest "1.20.1" rfl (by decide) rfl

/-- C6 (as stated, refuted): an overlay whose `inheritsFrom` names itself is
resolved without any error: `resolveVersion` returns the one-level merge, here
with the overlay's library twice. -/
theorem resolveVersion_self_overlay_returns :
    truthyStr selfOverlay.inheritsFrom = true ∧
      ∃ r, resolveVersion selfEnv selfOverlay = Except.ok r ∧
        r.id = "fabric-loader-0.15.0-1.20.1" ∧ r.libraries.map List.length = some 2 :=
  ⟨by decide, _, rfl, rfl, rfl⟩

/-- C6 (amended): when the manifest named by an overlay's `inheritsFrom` can be
read and itself has `inheritsFrom` set, `resolveVersion` neither recurses nor
fails: it returns the one-level merge of the overlay over that manifest, whose
own `inheritsFrom` is ignored, and the result has no `inheritsFrom`. -/
theorem resolveVersion_single_level (env : Env) (overlay base : Manifest) (inh : String)
    (hinh : overlay.inheritsFrom = some inh) (hne : inh ≠ "")
    (hbase : env.readManifest (env.join [env.gameDir, "versions", inh, inh ++ ".json"])
      = some base)
    (hchain : truthyStr base.inheritsFrom = true) :
    (∃ r, resolveVersion env overlay = Except.ok r ∧
      r.inheritsFrom = none ∧
      r.id = overlay.id ∧
      r.libraries = some (base.libraries.getD [] ++ overlay.libraries.getD []) ∧
      r.arguments = some (mergeArguments base.arguments overlay.arguments)) ∧
    resolveVersion env overlay =
      resolveVersion
        { env with readManifest := fun _ => some { base with inheritsFrom := none } } overlay := by
  have _ := hchain
  refine ⟨⟨_, resolveVersion_overlay_eq env overlay base inh hinh hne hbase, rfl, rfl, rfl, rfl⟩, ?_⟩
  rw [resolveVersion_overlay_eq env overlay base inh hinh hne hbase,
    resolveVersion_overlay_eq { env with readManifest := fun _ => some { base with inheritsFrom := none } }
      overlay { base with inheritsFrom := none } inh hinh hne rfl]
  rfl

/-- C6 (amended) at the overlay that inherits from itself. -/
theorem resolveVersion_single_level_witness :
    truthyStr selfOverlay.inheritsFrom = true ∧
      ∃ r, resolveVersion selfEnv selfOverlay = Except.ok r ∧
        r.inheritsFrom = none ∧
        r.id = selfOverlay.id ∧
        r.libraries = some (selfOverlay.libraries.getD [] ++ selfOverlay.libraries.getD []) ∧
        r.arguments = some (mergeArguments selfOverlay.arguments selfOverlay.arguments) :=
  ⟨by decide,
    (resolveVersion_single_level selfEnv selfOverlay selfOverlay "fabric-loader-0.15.0-1.20.1"
      rfl (by decide) rfl (by decide)).1⟩

/-! ## Theorems: argument shapes of the effective manifest -/

theorem jsonTruthy_mergedValue (base : List (String × Json)) (cv : Json) (k : String) :
    jsonTruthy (mergedValue base cv k) = jsonTruthy cv := by
  unfold mergedValue
  split
  · rename_i c b hc _
    cases cv <;> simp_all [asArray, jsonTruthy]
  · rfl

theorem objGet_game_mergeArguments (base child : List (String × Json)) :
    objGet (mergeArguments (some base) (some child)) "game" =
      match objGet child "game" with
      | some cv => some (mergedValue base cv "game")
      | none => objGet base "game" := by
  rw [objGet_mergeArguments]
  have hne : ¬ ("game" = "__proto__") := by decide
  cases objGet child "game" <;> simp [hne]

/-- The effective manifest carries the structured shape when the overlay, a
parsed manifest, does. -/
theorem hasStructured_merge_of_child (overlay base r : Manifest)
    (hr : r.arguments = some (mergeArguments base.arguments overlay.arguments))
    (hparsed : overlay.argumentsProto = none)
    (h : hasStructured overlay = true) : hasStructured r = true := by
  unfold hasStructured at h ⊢
  rw [hr]
  cases hc : overlay.arguments with
  | none => simp [hc] at h
  | some c =>
    simp only [hc] at h
    cases hg : objGet c "game" with
    | none => simp [hg, hparsed, inheritedProperty] at h
    | some g =>
      simp only [hg] at h
      cases hb : base.arguments with
      | none =>
        have hm : mergeArguments none (some c) = c := rfl
        simp only [hm, hg, h]
      | some b =>
        simp only [objGet_game_mergeArguments, hg, jsonTruthy_mergedValue, h]

/-- The effective manifest does not carry the structured shape when neither
manifest does and the overlay's `arguments` has no key `__proto__`. -/
theorem hasStructured_merge_of_neither (overlay base r : Manifest)
    (hr : r.arguments = some (mergeArguments base.arguments overlay.arguments))
    (hrp : r.argumentsProto = argumentsPrototype base overlay)
    (hnp : ∀ c, overlay.arguments = some c → objGet c "__proto__" = none)
    (ho : hasStructured overlay = false) (hb : hasStructured base = false) :
    hasStructured r = false := by
  have hog : ∀ c g, overlay.arguments = some c → objGet c "game" = some g →
      jsonTruthy g = false := by
    intro c g hc hg
    simpa [hasStructured, hc, hg] using ho
  have hbg : ∀ b g, base.arguments = some b → objGet b "game" = some g →
      jsonTruthy g = false := by
    intro b g hbs hg
    simpa [hasStructured, hbs, hg] using hb
  cases hc : overlay.arguments with
  | none =>
    cases hbase : base.arguments with
    | none =>
      have hp : r.argumentsProto = none := by
        rw [hrp]
        simp only [argumentsPrototype, hc, hbase]
        rfl
      unfold hasStructured
      rw [hr, hc, hbase, hp]
      rfl
    | some b =>
      have hm : mergeArguments (some b) none = b := rfl
      have hp : r.argumentsProto = base.argumentsProto := by
        rw [hrp]
        simp only [argumentsPrototype, hc, hbase]
      rw [← hb]
      unfold hasStructured
      rw [hr, hc, hbase, hm, hp]
  | some c =>
    cases hbase : base.arguments with
    | none =>
      have hm : mergeArguments none (some c) = c := rfl
      have hp : r.argumentsProto = overlay.argumentsProto := by
        rw [hrp]
        simp only [argumentsPrototype, hc, hbase]
      rw [← ho]
      unfold hasStructured
      rw [hr, hc, hbase, hm, hp]
    | some b =>
      have hproto : r.argumentsProto = none := by
        rw [hrp]
        simp only [argumentsPrototype, hc, hbase]
        exact mergeArgumentsProto_of_no_proto_key _ _
          (fun c2 h2 => hnp c2 (hc.trans h2))
      unfold hasStructured
      rw [hr, hproto, hc, hbase]
      simp only [inheritedProperty, objGet_game_mergeArguments]
      cases hg : objGet c "game" with
      | none =>
        simp only
        cases hg2 : objGet b "game" with
        | none => rfl
        | some g => simpa using hbg b g hbase hg2
      | some g =>
        simp only [jsonTruthy_mergedValue]
        exact hog c g hc hg

/-- C7 (as stated, refuted): a structured-only overlay over a legacy-only base
resolves to a manifest that carries both shapes. -/
theorem resolveVersion_mixed_shapes_carries_both :
    (hasStructured structuredOverlay = true ∧ hasLegacy structuredOverlay = false) ∧
      (hasStructured legacyBase = false ∧ hasLegacy legacyBase = true) ∧
      ∃ r, resolveVersion legacyEnv structuredOverlay = Except.ok r ∧
        hasStructured r = true ∧ hasLegacy r = true :=
  ⟨⟨by decide, by decide⟩, ⟨by decide, by decide⟩, _, rfl, by decide, by decide⟩

/-- C7 (amended): for an overlay and a base, parsed manifests that each carry
exactly one argument shape, the effective manifest has the overlay's legacy
string when the overlay has one and the base's otherwise, so it carries the
legacy shape exactly when one of them does; it carries the structured shape
whenever the overlay does, and never when neither does and the overlay's
`arguments` has no key `__proto__`. So it carries exactly the shared shape
when both are structured, and when both are legacy (no `__proto__` key); it
carries both shapes when the overlay is structured and the base legacy. -/
theorem resolveVersion_argument_shapes (env : Env) (overlay base : Manifest) (inh : String)
    (hinh : overlay.inheritsFrom = some inh) (hne : inh ≠ "")
    (hbase : env.readManifest (env.join [env.gameDir, "versions", inh, inh ++ ".json"])
      = some base)
    (hparsed : overlay.argumentsProto = none)
    (hoverlay : hasStructured overlay ≠ hasLegacy overlay)
    (hbaseShape : hasStructured base ≠ hasLegacy base) :
    ∃ r, resolveVersion env overlay = Except.ok r ∧
      hasLegacy r = (hasLegacy overlay || hasLegacy base) ∧
      (hasLegacy overlay = true → r.minecraftArguments = overlay.minecraftArguments) ∧
      (hasLegacy overlay = false → r.minecraftArguments = base.minecraftArguments) ∧
      (hasStructured overlay = true → hasStructured r = true) ∧
      ((∀ c, overlay.arguments = some c → objGet c "__proto__" = none) →
        hasStructured overlay = false → hasStructured base = false →
        hasStructured r = false) ∧
      (hasStructured overlay = true → hasStructured base = true →
        hasStructured r = true ∧ hasLegacy r = false) ∧
      ((∀ c, overlay.arguments = some c → objGet c "__proto__" = none) →
        hasLegacy overlay = true → hasLegacy base = true →
        hasStructured r = false ∧ hasLegacy r = true) ∧
      (hasStructured overlay = true → hasStructured base = false →
        hasStructured r = true ∧ hasLegacy r = true) := by
  have hleg : ∀ m : Manifest, hasLegacy m = truthyStr m.minecraftArguments := fun _ => rfl
  have hol : hasStructured overlay = true → hasLegacy overlay = false := by
    intro h
    cases h2 : hasLegacy overlay
    · rfl
    · exact absurd (h.trans h2.symm) hoverlay
  have hbl : hasStructured base = false → hasLegacy base = true := by
    intro h
    cases h2 : hasLegacy base
    · exact absurd (h.trans h2.symm) hbaseShape
    · rfl
  have hbs : hasStructured base = true → hasLegacy base = false := by
    intro h
    cases h2 : hasLegacy base
    · rfl
    · exact absurd (h.trans h2.symm) hbaseShape
  have hos : hasLegacy overlay = true → hasStructured overlay = false := by
    intro h
    cases h2 : hasStructured overlay
    · rfl
    · exact absurd (h2.trans h.symm) hoverlay
  have hbs2 : hasLegacy base = true → hasStructured base = false := by
    intro h
    cases h2 : hasStructured base
    · rfl
    · exact absurd (h2.trans h.symm) hbaseShape
  refine ⟨_, resolveVersion_overlay_eq env overlay base inh hinh hne hbase,
    ?_, ?_, ?_, ?_, ?_, ?_, ?_, ?_⟩
  · simp only [hleg, truthyStr_orStr]
  · intro h
    rw [hleg] at h
    simp [orStr, h]
  · intro h
    rw [hleg] at h
    simp [orStr, h]
  · intro h
    exact hasStructured_merge_of_child overlay base _ rfl hparsed h
  · intro hnp ho hb
    exact hasStructured_merge_of_neither overlay base _ rfl rfl hnp ho hb
  · intro ho hb
    refine ⟨hasStructured_merge_of_child overlay base _ rfl hparsed ho, ?_⟩
    have h1 := hol ho
    have h2 := hbs hb
    rw [hleg] at h1 h2 ⊢
    simp only [truthyStr_orStr, h1, h2, Bool.or_self]
  · intro hnp ho hb
    refine ⟨hasStructured_merge_of_neither overlay base _ rfl rfl hnp (hos ho) (hbs2 hb), ?_⟩
    rw [hleg] at ho ⊢
    simp only [truthyStr_orStr, ho, Bool.true_or]
  · intro ho hb
    refine ⟨hasStructured_merge_of_child overlay base _ rfl hparsed ho, ?_⟩
    have h2 := hbl hb
    rw [hleg] at h2 ⊢
    simp only [truthyStr_orStr, h2, Bool.or_true]

/-- C7 (amended) at a legacy overlay without `arguments` over the legacy
base `1.12.2`: the result keeps the overlay's string and is legacy only. -/
theorem resolveVersion_argument_shapes_witness :
    (legacyOverlay.argumentsProto = none ∧
      hasStructured legacyOverlay ≠ hasLegacy legacyOverlay ∧
      hasStructured legacyBase ≠ hasLegacy legacyBase) ∧
      ∃ r, resolveVersion legacyEnv legacyOverlay = Except.ok r ∧
        r.minecraftArguments = legacyOverlay.minecraftArguments ∧
        hasStructured r = false ∧ hasLegacy r = true :=
  match resolveVersion_argument_shapes legacyEnv legacyOverlay legacyBase "1.12.2"
      rfl (by decide) rfl rfl (by decide) (by decide) with
  | ⟨r, hr, _, hown, _, _, _, _, hlegacy, _⟩ =>
    ⟨⟨rfl, by decide, by decide⟩, r, hr, hown (by decide),
      hlegacy (fun _ h => Option.noConfusion h) (by decide) (by decide)⟩

/-- The exclusion of `__proto__` in C7 cannot be dropped: a legacy overlay
whose `arguments` is `{"__proto__": {"game": [...]}}`, over a legacy base with
an empty `arguments` object, neither of them structured, resolves to a
manifest that reads `arguments.game` from the replaced prototype. -/
theorem resolveVersion_proto_key_adds_structured :
    hasStructured protoOverlay = false ∧ hasStructured protoBase = false ∧
      ∃ r, resolveVersion protoEnv protoOverlay = Except.ok r ∧
        hasStructured r = true ∧ hasLegacy r = true :=
  ⟨by decide, by decide, _, rfl, by decide, by decide⟩

/-! ## Theorems: buildClasspath -/

theorem classpathStep_eq (env : Env) (paths : List String) (lib : Library) :
    classpathStep env (env.join [env.gameDir, "libraries"]) paths lib =
      paths ++ (libraryEntry env lib).toList := by
  unfold classpathStep libraryEntry
  cases hrules : checkLibraryRules lib with
  | false => simp
  | true =>
    simp only [Bool.not_true, Bool.false_eq_true, if_false, if_true]
    cases hd : lib.downloads with
    | none => simp
    | some downloads =>
      simp only
      cases ha : downloads.artifact with
      | none => simp
      | some artifact =>
        simp only
        split <;> simp

theorem foldl_classpathStep (env : Env) (libraries : List Library) :
    ∀ paths : List String,
      libraries.foldl (classpathStep env (env.join [env.gameDir, "libraries"])) paths =
        paths ++ libraries.filterMap (libraryEntry env) := by
  induction libraries with
  | nil => intro paths; simp
  | cons lib rest ih =>
    intro paths
    rw [List.foldl_cons, ih, classpathStep_eq, List.append_assoc]
    cases h : libraryEntry env lib <;> simp [List.filterMap_cons, h]

/-- The library loop of `buildClasspath` collects, in order, the entries of
the libraries that pass their rules, have an artifact and exist on disk. -/
theorem libraryPaths_eq (env : Env) (libraries : List Library) :
    libraryPaths env libraries = libraries.filterMap (libraryEntry env) := by
  unfold libraryPaths
  rw [foldl_classpathStep]
  simp

/-- C9: for a manifest with a libraries list, the paths collected by
`buildClasspath` are, in manifest library order, the local artifact paths of
the libraries that pass `checkLibraryRules`, have a download artifact and
exist on disk, followed by the main-jar part, and the output joins them with
`;`. For a manifest produced by `resolveVersion` the library part is the
base-manifest entries followed by the overlay-manifest entries. -/
theorem buildClasspath_library_order (env : Env) (versionData : Manifest)
    (versionDir : String) (libs : List Library) (hlibs : versionData.libraries = some libs) :
    classpathEntries env versionData versionDir =
        Except.ok (libs.filterMap (libraryEntry env) ++
          mainJarPaths env versionData.id versionDir) ∧
      buildClasspath env versionData versionDir =
        Except.ok (String.intercalate ";" (libs.filterMap (libraryEntry env) ++
          mainJarPaths env versionData.id versionDir)) ∧
      (∀ (overlay base : Manifest) (inh : String),
        overlay.inheritsFrom = some inh → inh ≠ "" →
        env.readManifest (env.join [env.gameDir, "versions", inh, inh ++ ".json"]) = some base →
        resolveVersion env overlay = Except.ok versionData →
        libs.filterMap (libraryEntry env) =
          (base.libraries.getD []).filterMap (libraryEntry env) ++
            (overlay.libraries.getD []).filterMap (libraryEntry env)) := by
  have hentries : classpathEntries env versionData versionDir =
      Except.ok (libs.filterMap (libraryEntry env) ++
        mainJarPaths env versionData.id versionDir) := by
    simp only [classpathEntries, hlibs, libraryPaths_eq]
  refine ⟨hentries, ?_, ?_⟩
  · simp only [buildClasspath, hentries]
  · intro overlay base inh hinh hne hbase hres
    rw [resolveVersion_overlay_eq env overlay base inh hinh hne hbase] at hres
    have hvd := Except.ok.inj hres
    rw [← hvd] at hlibs
    simp only [Option.some.injEq] at hlibs
    rw [← hlibs, List.filterMap_append]

/-- C9 at the installed base manifest `1.20.1`. -/
theorem buildClasspath_library_order_witness :
    baseManifest.libraries = some [artifactLibrary "com.mojang:brigadier:1.1.8"
        "com/mojang/brigadier/1.1.8/brigadier-1.1.8.jar"] ∧
      classpathEntries overlayEnv baseManifest "/mc/versions/1.20.1" =
        Except.ok ([artifactLibrary "com.mojang:brigadier:1.1.8"
            "com/mojang/brigadier/1.1.8/brigadier-1.1.8.jar"].filterMap (libraryEntry overlayEnv) ++
          mainJarPaths overlayEnv baseManifest.id "/mc/versions/1.20.1") :=
  ⟨rfl, (buildClasspath_library_order overlayEnv baseManifest "/mc/versions/1.20.1"
    [artifactLibrary "com.mojang:brigadier:1.1.8"
      "com/mojang/brigadier/1.1.8/brigadier-1.1.8.jar"] rfl).1⟩

theorem splitChars_cons (sep c : Char) (cs : List Char) :
    splitChars sep (c :: cs) =
      if c = sep then [] :: splitChars sep cs
      else
        match splitChars sep cs with
        | [] => [[c]]
        | seg :: rest => (c :: seg) :: rest := by
  rw [splitChars]

theorem splitChars_ne_nil (sep : Char) (cs : List Char) : splitChars sep cs ≠ [] := by
  cases cs with
  | nil => simp [splitChars]
  | cons c cs =>
    rw [splitChars_cons]
    by_cases hc : c = sep
    · simp [hc]
    · simp only [hc, if_false]
      split <;> simp

theorem splitChars_of_not_mem (sep : Char) (cs : List Char) (h : sep ∉ cs) :
    splitChars sep cs = [cs] := by
  induction cs with
  | nil => rfl
  | cons c cs ih =>
    have hc : ¬ c = sep := fun hc => h (by simp [hc])
    have hcs : sep ∉ cs := fun hm => h (by simp [hm])
    rw [splitChars_cons, ih hcs]
    simp [hc]

/-- Splitting at a separator splits the list of pieces. -/
theorem splitChars_append (sep : Char) (xs tail : List Char) :
    splitChars sep (xs ++ sep :: tail) = splitChars sep xs ++ splitChars sep tail := by
  induction xs with
  | nil => simp [splitChars_cons, splitChars]
  | cons c cs ih =>
    rw [List.cons_append, splitChars_cons, splitChars_cons, ih]
    by_cases hc : c = sep
    · simp [hc]
    · simp only [hc, if_false]
      cases hs : splitChars sep cs with
      | nil => exact absurd hs (splitChars_ne_nil sep cs)
      | cons seg rest => simp

theorem getLast?_splitChars_append (sep : Char) (xs tail : List Char) :
    (splitChars sep (xs ++ sep :: tail)).getLast? = (splitChars sep tail).getLast? := by
  rw [splitChars_append, List.getLast?_append_of_ne_nil _ (splitChars_ne_nil sep tail)]

/-- On an overlay id built by `installFabric` from a base id without a
hyphen, `id.split('-').pop()` is the base id and the id is recognised as an
overlay. -/
theorem fabricId_split_of_no_hyphen (loaderVersion mcVersion : String)
    (h : '-' ∉ mcVersion.data) :
    splitPop (fabricId loaderVersion mcVersion) '-' = mcVersion ∧
      strIncludes (fabricId loaderVersion mcVersion) "fabric-loader" = true := by
  constructor
  · unfold splitPop fabricId
    have hdata : ("fabric-loader-" ++ loaderVersion ++ "-" ++ mcVersion).data =
        ("fabric-loader-" ++ loaderVersion).data ++ '-' :: mcVersion.data := by
      simp [String.data_append]
    rw [hdata, getLast?_splitChars_append, splitChars_of_not_mem _ _ h]
    simp
  · unfold strIncludes fabricId
    have hdata : ("fabric-loader-" ++ loaderVersion ++ "-" ++ mcVersion).data =
        'f' :: ("abric-loader-".data ++ (loaderVersion.data ++ '-' :: mcVersion.data)) := by
      simp [String.data_append]
    rw [hdata]
    unfold includesChars
    simp [List.isPrefixOf]

/-- The main-jar part of the classpath: for an overlay id built by
`installFabric` from a base id without a hyphen it is the base jar when that
jar is on disk and nothing otherwise; for an id that does not contain
`fabric-loader` it is `<versionDir>/<id>.jar`. -/
theorem mainJarPaths_cases (env : Env) (versionDir : String) :
    (∀ loaderVersion mcVersion : String, '-' ∉ mcVersion.data →
      mainJarPaths env (fabricId loaderVersion mcVersion) versionDir =
        if env.existsSync (env.join [env.gameDir, "versions", mcVersion, mcVersion ++ ".jar"])
        then [env.join [env.gameDir, "versions", mcVersion, mcVersion ++ ".jar"]] else []) ∧
    (∀ id : String, strIncludes id "fabric-loader" = false →
      mainJarPaths env id versionDir = [env.join [versionDir, id ++ ".jar"]]) := by
  constructor
  · intro loaderVersion mcVersion h
    obtain ⟨hpop, hinc⟩ := fabricId_split_of_no_hyphen loaderVersion mcVersion h
    simp only [mainJarPaths, hinc, hpop, if_true]
  · intro id hid
    simp [mainJarPaths, hid]

/-- C10 (the code at a failing input): for the overlay
`fabric-loader-0.15.0-1.20-pre1` over a fully installed `1.20-pre1`,
`id.split('-').pop()` is `pre1`, the jar `versions/pre1/pre1.jar` does not
exist, and the classpath ends with a library instead of
`versions/1.20-pre1/1.20-pre1.jar`, which is on disk. -/
theorem buildClasspath_hyphenated_base_misses_jar :
    preOverlay.id = fabricId "0.15.0" "1.20-pre1" ∧
      splitPop preOverlay.id '-' = "pre1" ∧
      preEnv.existsSync "/mc/versions/1.20-pre1/1.20-pre1.jar" = true ∧
      ∃ r, resolveVersion preEnv preOverlay = Except.ok r ∧
        classpathEntries preEnv r "/mc/versions/fabric-loader-0.15.0-1.20-pre1" =
          Except.ok ["/mc/libraries/com/mojang/brigadier/1.1.8/brigadier-1.1.8.jar"] ∧
        buildClasspath preEnv r "/mc/versions/fabric-loader-0.15.0-1.20-pre1" =
          Except.ok "/mc/libraries/com/mojang/brigadier/1.1.8/brigadier-1.1.8.jar" :=
  ⟨rfl, by decide, by decide, _, rfl, rfl, rfl⟩

/-! ## Theorems: buildArguments -/

set_option maxRecDepth 20000 in
/-- C11 (the code at failing inputs): `replace` with a string pattern replaces
the first occurrence only, so a template that names the player twice keeps its
second `${auth_player_name}`; and the template of the `1.8.9` manifest keeps
`${user_properties}`, for which there is no `replace` call. -/
theorem buildArguments_placeholders_remain :
    gameArguments emptyEnv twiceNamed steve defaultSettings =
        [some "--username", some "Steve", some "--owner", some "${auth_player_name}",
         some "--width", some "1280", some "--height", some "720"] ∧
      legacyTokens emptyEnv legacy189 steve legacyTemplate189 =
        ["--username", "Steve", "--version", "1.8.9", "--gameDir", "/mc",
         "--assetsDir", "/mc/assets", "--assetIndex", "1.8",
         "--uuid", "5627dd98-e6be-3c21-b8a8-e92344183641", "--accessToken", "0",
         "--userProperties", "${user_properties}", "--userType", "legacy"] := by
  constructor <;> decide

/-- C12 (the code at a failing input): `split(' ')` cuts at every single
space and nowhere else, so two spaces in a row give an empty token and a tab
stays inside its token. -/
theorem buildArguments_split_keeps_empty_token :
    hasStructured wideSpaced = false ∧
      gameArguments emptyEnv wideSpaced steve defaultSettings =
        [some "--username", some "Steve", some "", some "--version\t1.12.2",
         some "--width", some "1280", some "--height", some "720"] := by
  constructor <;> decide

/-- The game arguments of a manifest in the legacy shape only: the pieces of
the substituted template between single spaces, then the window tail. -/
theorem gameArguments_legacy (env : Env) (versionData : Manifest) (account : Account)
    (settings : Settings) (template : String)
    (hs : hasStructured versionData = false)
    (ht : versionData.minecraftArguments = some template) (hne : template ≠ "") :
    gameArguments env versionData account settings =
      (jsSplit (substituteLegacy env versionData account template) ' ').map some ++
        windowArguments settings := by
  simp [gameArguments, hs, ht, truthyStr, hne, legacyTokens]

/-- C19: the vector of `buildArguments` is `-Xms<min>M`, `-Xmx<max>M`, the six
garbage-collector flags, `-Djava.library.path=<versionDir>/natives`, the two
launcher-brand properties, `-cp`, the classpath, the main class, and then the
game arguments; `max` is `settings.ramMb` (4096 when unset or zero) and `min`
is `settings.minRamMb` (the floor of `max / 2` when unset or zero). -/
theorem buildArguments_layout (env : Env) (versionData : Manifest)
    (versionDir classpath : String) (account : Account) (settings : Settings) :
    ∃ maxMb minMb : Int,
      (maxMb = match settings.ramMb with
        | some r => if r = 0 then 4096 else r
        | none => 4096) ∧
      (minMb = match settings.minRamMb with
        | some r => if r = 0 then Int.fdiv maxMb 2 else r
        | none => Int.fdiv maxMb 2) ∧
      buildArguments env versionData versionDir classpath account settings =
        [some ("-Xms" ++ toString minMb ++ "M"), some ("-Xmx" ++ toString maxMb ++ "M")] ++
          gcFlags ++
          [some ("-Djava.library.path=" ++ env.join [versionDir, "natives"]),
           some "-Dminecraft.launcher.brand=NsLauncher",
           some "-Dminecraft.launcher.version=1.0.0"] ++
          [some "-cp", some classpath, versionData.mainClass] ++
          gameArguments env versionData account settings ∧
      (buildArguments env versionData versionDir classpath account settings).get? 11 =
        some (some "-cp") ∧
      (buildArguments env versionData versionDir classpath account settings).get? 12 =
        some (some classpath) ∧
      (buildArguments env versionData versionDir classpath account settings).get? 13 =
        some versionData.mainClass ∧
      (buildArguments env versionData versionDir classpath account settings).drop 14 =
        gameArguments env versionData account settings := by
  refine ⟨orInt settings.ramMb 4096, orInt settings.minRamMb (Int.fdiv (orInt settings.ramMb 4096) 2),
    ?_, ?_, ?_, ?_, ?_, ?_, ?_⟩
  · cases settings.ramMb <;> rfl
  · cases settings.minRamMb <;> rfl
  · simp [buildArguments, jvmArguments, gcFlags]
  · simp [buildArguments, jvmArguments, gcFlags]
  · simp [buildArguments, jvmArguments, gcFlags]
  · simp [buildArguments, jvmArguments, gcFlags]
  · simp [buildArguments, jvmArguments, gcFlags]

/-- C20: for a manifest carrying the structured shape, the game arguments
after the main class are the nine flag/value pairs in the stated order, then
`--fullscreen` when `settings.fullscreen` is set and otherwise `--width` W
`--height` H with 1280 and 720 for unset (or zero) dimensions. The asset-index
value is `assetIndex.id` when the manifest has one. -/
theorem buildArguments_structured (env : Env) (versionData : Manifest)
    (versionDir classpath : String) (account : Account) (settings : Settings)
    (h : hasStructured versionData = true) :
    (buildArguments env versionData versionDir classpath account settings).drop 14 =
        [some "--username", some account.username,
         some "--version", some versionData.id,
         some "--gameDir", some env.gameDir,
         some "--assetsDir", some (env.join [env.gameDir, "assets"]),
         some "--assetIndex", some (assetIndexName versionData),
         some "--uuid", some account.uuid,
         some "--accessToken", some (match account.accessToken with
           | some t => if t = "" then "0" else t
           | none => "0"),
         some "--userType", some (match account.type with
           | some t => if t = "" then "legacy" else t
           | none => "legacy"),
         some "--versionType", some "release"] ++
        (if settings.fullscreen = true then [some "--fullscreen"]
         else
           [some "--width", some (toString (match settings.windowWidth with
              | some w => if w = 0 then 1280 else w
              | none => 1280)),
            some "--height", some (toString (match settings.windowHeight with
              | some w => if w = 0 then 720 else w
              | none => 720))]) ∧
      (∀ a i, versionData.assetIndex = some a → a.id = some i → i ≠ "" →
        assetIndexName versionData = i) := by
  constructor
  · have hdrop : (buildArguments env versionData versionDir classpath account settings).drop 14 =
        gameArguments env versionData account settings := by
      simp [buildArguments, jvmArguments, gcFlags]
    rw [hdrop]
    simp only [gameArguments, h, if_true, structuredArguments, windowArguments]
    have htok : (orStr account.accessToken (some "0")).getD "0" =
        (match account.accessToken with
          | some t => if t = "" then "0" else t
          | none => "0") := by
      cases ht : account.accessToken with
      | none => simp [orStr, truthyStr]
      | some t => by_cases h0 : t = "" <;> simp [orStr, truthyStr, h0]
    have htype : (orStr account.type (some "legacy")).getD "legacy" =
        (match account.type with
          | some t => if t = "" then "legacy" else t
          | none => "legacy") := by
      cases ht : account.type with
      | none => simp [orStr, truthyStr]
      | some t => by_cases h0 : t = "" <;> simp [orStr, truthyStr, h0]
    have hw : ∀ (o : Option Int) (d : Int), orInt o d =
        (match o with
          | some w => if w = 0 then d else w
          | none => d) := by
      intro o d; cases o <;> rfl
    rw [htok, htype, hw, hw]
  · intro a i ha hi hne
    simp [assetIndexName, ha, hi, orStr, truthyStr, hne]

/-- C20 at the manifest of `1.20.1` with the default settings. -/
theorem buildArguments_structured_witness :
    hasStructured baseManifest = true ∧
      (buildArguments emptyEnv baseManifest "/mc/versions/1.20.1" "cp" steve defaultSettings).drop 14 =
        [some "--username", some "Steve", some "--version", some "1.20.1",
         some "--gameDir", some "/mc", some "--assetsDir", some "/mc/assets",
         some "--assetIndex", some "legacy",
         some "--uuid", some "5627dd98-e6be-3c21-b8a8-e92344183641",
         some "--accessToken", some "0", some "--userType", some "legacy",
         some "--versionType", some "release",
         some "--width", some "1280", some "--height", some "720"] :=
  ⟨by decide,
    (buildArguments_structured emptyEnv baseManifest "/mc/versions/1.20.1" "cp" steve
      defaultSettings (by decide)).1⟩

/-! ## Theorems: binary64 arithmetic -/

theorem binade_self (n : Nat) : binade n n = 0 := by
  simp [binade]

theorem roundHalfEven_mul_self (n k : Nat) (hn : 0 < n) : roundHalfEven (n * k) n = k := by
  simp [roundHalfEven, Nat.mul_div_cancel_left k hn, hn]

theorem normalize_one : Dbl.normalize (2 ^ 52) 52 = Dbl.one := by decide

/-- The quotient of a positive integer by itself is exactly `1.0`. -/
theorem fdiv_self (n : Nat) (hn : 0 < n) : fdiv n n = Dbl.one := by
  have hne : n ≠ 0 := Nat.pos_iff_ne_zero.mp hn
  simp only [fdiv, roundDbl, hne, or_self, if_false, binade_self]
  have h1 : ¬ (0 : Int) ≤ 0 - 52 := by decide
  have h2 : (-((0 : Int) - 52)).toNat = 52 := by decide
  simp only [h1, if_false, h2, roundHalfEven_mul_self n (2 ^ 52) hn]
  exact normalize_one

set_option maxRecDepth 20000 in
/-- The literals of the progress arithmetic are the binary64 numbers that
JavaScript reads them as, and `0.15 + 0.55` rounds above `0.70`. -/
theorem progress_literals :
    clientWeight = { mant := 5404319552844595, scale := 55 } ∧
      librariesWeight = { mant := 2476979795053773, scale := 52 } ∧
      assetsWeight = { mant := 5404319552844595, scale := 54 } ∧
      afterLibraries = { mant := 3152519739159347, scale := 52 } ∧
      fadd clientWeight (fmul Dbl.one librariesWeight) =
        { mant := 6305039478318695, scale := 53 } ∧
      fadd Dbl.one Dbl.one = { mant := 2, scale := 0 } := by
  refine ⟨?_, ?_, ?_, ?_, ?_, ?_⟩ <;> decide

/-! ## Theorems: downloadAssets -/

theorem assetLoop_zero (env : Env) (world : World) (objectsDir : String)
    (objects : List (String × AssetObject)) (i : Nat) (run : AssetsRun) :
    assetLoop env world objectsDir objects 0 i run = run := rfl

theorem assetLoop_succ (env : Env) (world : World) (objectsDir : String)
    (objects : List (String × AssetObject)) (fuel i : Nat) (run : AssetsRun) :
    assetLoop env world objectsDir objects (fuel + 1) i run =
      if i < objects.length then
        match (batchTransfers env world objectsDir run.files ((objects.drop i).take 30)).2 with
        | some e =>
          { run with batches := run.batches ++ [(objects.drop i).take 30],
                     files := (batchTransfers env world objectsDir run.files
                       ((objects.drop i).take 30)).1, error := some e }
        | none =>
          assetLoop env world objectsDir objects fuel (i + 30)
            { progress := run.progress ++ [fdiv (min (i + 30) objects.length) objects.length]
              batches := run.batches ++ [(objects.drop i).take 30]
              files := (batchTransfers env world objectsDir run.files
                ((objects.drop i).take 30)).1
              error := none }
      else run := by
  rw [assetLoop]

theorem downloadAssets_eq_loop (env : Env) (world : World) (versionData : Manifest)
    (assetsDir : String) (files : List String) (objectsDir : String) (files1 : List String)
    (objects : List (String × AssetObject))
    (hidx : loadAssetIndex env world versionData assetsDir files =
      Except.ok (objectsDir, files1, objects)) :
    downloadAssets env world versionData assetsDir files =
      downloadAssetsLoop env world objectsDir files1 objects := by
  simp only [downloadAssets, hidx]

theorem progressValues_shift (len i n : Nat) :
    fdiv (min (i + 30) len) len ::
        (List.range n).map (fun k => fdiv (min (i + 30 + 30 * (k + 1)) len) len) =
      (List.range (n + 1)).map (fun k => fdiv (min (i + 30 * (k + 1)) len) len) := by
  rw [List.range_succ_eq_map]
  simp only [List.map_cons, List.map_map, Nat.zero_add, Nat.mul_one]
  congr 1
  apply List.map_congr_left
  intro k _
  simp only [Function.comp]
  congr 2
  omega

theorem slices_shift {α : Type} (objects : List α) (i n : Nat) :
    (objects.drop i).take 30 ::
        (List.range n).map (fun k => (objects.drop (i + 30 + 30 * k)).take 30) =
      (List.range (n + 1)).map (fun k => (objects.drop (i + 30 * k)).take 30) := by
  rw [List.range_succ_eq_map]
  simp only [List.map_cons, List.map_map, Nat.mul_zero, Nat.add_zero]
  congr 1
  apply List.map_congr_left
  intro k _
  simp only [Function.comp]
  congr 2
  omega

/-- The first `b` slices of 30, put end to end, are the first `30 b` objects. -/
theorem slices_flatten {α : Type} (objects : List α) (b : Nat) :
    ((List.range b).map (fun k => (objects.drop (30 * k)).take 30)).flatten =
      objects.take (30 * b) := by
  induction b with
  | zero => simp
  | succ b ih =>
    rw [List.range_succ, List.map_append, List.flatten_append, ih]
    simp only [List.map_cons, List.map_nil, List.flatten_cons, List.flatten_nil,
      List.append_nil]
    rw [Nat.mul_succ, List.take_add]

/-- Every run of the batch loop, started at index `i` with enough fuel:
`j` reports are appended, one per completed batch, each the quotient the
claim names; either the run ends without an exception after all remaining
batches, or a failed transfer ends it in the batch after the `j`-th. -/
theorem assetLoop_trace (env : Env) (world : World) (objectsDir : String)
    (objects : List (String × AssetObject)) :
    ∀ (fuel i : Nat) (run : AssetsRun), objects.length ≤ i + 30 * fuel → run.error = none →
      ∃ j,
        (assetLoop env world objectsDir objects fuel i run).progress =
          run.progress ++ (List.range j).map
            (fun k => fdiv (min (i + 30 * (k + 1)) objects.length) objects.length) ∧
        (((assetLoop env world objectsDir objects fuel i run).error = none ∧
            j = (objects.length - i + 29) / 30 ∧
            (assetLoop env world objectsDir objects fuel i run).batches =
              run.batches ++ (List.range j).map
                (fun k => (objects.drop (i + 30 * k)).take 30)) ∨
          ((assetLoop env world objectsDir objects fuel i run).error ≠ none ∧
            j < (objects.length - i + 29) / 30 ∧
            (assetLoop env world objectsDir objects fuel i run).batches =
              run.batches ++ (List.range (j + 1)).map
                (fun k => (objects.drop (i + 30 * k)).take 30))) := by
  intro fuel
  induction fuel with
  | zero =>
    intro i run hle herr
    refine ⟨0, by simp [assetLoop_zero], Or.inl ⟨?_, ?_, ?_⟩⟩
    · rw [assetLoop_zero]; exact herr
    · omega
    · simp [assetLoop_zero]
  | succ fuel ih =>
    intro i run hle herr
    rw [assetLoop_succ]
    by_cases hi : i < objects.length
    · simp only [hi, if_true]
      cases hb : (batchTransfers env world objectsDir run.files ((objects.drop i).take 30)).2 with
      | some e =>
        refine ⟨0, by simp, Or.inr ⟨by simp, by omega, ?_⟩⟩
        simp [List.range_succ]
      | none =>
        simp only
        obtain ⟨j, hp, hcase⟩ := ih (i + 30)
          { progress := run.progress ++ [fdiv (min (i + 30) objects.length) objects.length]
            batches := run.batches ++ [(objects.drop i).take 30]
            files := (batchTransfers env world objectsDir run.files
              ((objects.drop i).take 30)).1
            error := none } (by omega) rfl
        refine ⟨j + 1, ?_, ?_⟩
        · rw [hp, ← progressValues_shift objects.length i j]
          simp
        · rcases hcase with ⟨he, hj, hbs⟩ | ⟨he, hj, hbs⟩
          · refine Or.inl ⟨he, by omega, ?_⟩
            rw [hbs, ← slices_shift objects i j]
            simp
          · refine Or.inr ⟨he, by omega, ?_⟩
            rw [hbs, ← slices_shift objects i (j + 1)]
            simp
    · simp only [hi, if_false]
      refine ⟨0, by simp, Or.inl ⟨herr, by omega, by simp⟩⟩

theorem batchTransfers_ok (env : Env) (world : World) (objectsDir : String)
    (files : List String) (hall : ∀ url, (world.get url).ok = true)
    (batch : List (String × AssetObject)) :
    (batchTransfers env world objectsDir files batch).2 = none := by
  unfold batchTransfers
  suffices h : ∀ (acc : List String × Option LaunchError), acc.2 = none →
      (batch.foldl (assetTransfer env world objectsDir files) acc).2 = none from h _ rfl
  induction batch with
  | nil => intro acc hacc; simpa using hacc
  | cons o os ih =>
    intro acc hacc
    simp only [List.foldl_cons]
    apply ih
    unfold assetTransfer
    simp only [hall, if_true]
    split <;> exact hacc

/-- A run in which no transfer fails ends without an exception. -/
theorem assetLoop_ok (env : Env) (world : World) (objectsDir : String)
    (objects : List (String × AssetObject)) (hall : ∀ url, (world.get url).ok = true) :
    ∀ (fuel i : Nat) (run : AssetsRun), run.error = none →
      (assetLoop env world objectsDir objects fuel i run).error = none := by
  intro fuel
  induction fuel with
  | zero => intro i run h; rw [assetLoop_zero]; exact h
  | succ fuel ih =>
    intro i run h
    rw [assetLoop_succ]
    by_cases hi : i < objects.length
    · simp only [hi, if_true, batchTransfers_ok env world objectsDir run.files hall]
      exact ih _ _ rfl
    · simp only [hi, if_false]
      exact h

/-- The trace of `downloadAssets` on a loaded index: the reports and the
slices started. -/
theorem downloadAssets_trace (env : Env) (world : World) (versionData : Manifest)
    (assetsDir : String) (files : List String) (objectsDir : String) (files1 : List String)
    (objects : List (String × AssetObject))
    (hidx : loadAssetIndex env world versionData assetsDir files =
      Except.ok (objectsDir, files1, objects)) :
    ∃ j,
      (downloadAssets env world versionData assetsDir files).progress =
        (List.range j).map
          (fun k => fdiv (min (30 * (k + 1)) objects.length) objects.length) ∧
      (((downloadAssets env world versionData assetsDir files).error = none ∧
          j = (objects.length + 29) / 30 ∧
          (downloadAssets env world versionData assetsDir files).batches =
            (List.range j).map (fun k => (objects.drop (30 * k)).take 30)) ∨
        ((downloadAssets env world versionData assetsDir files).error ≠ none ∧
          j < (objects.length + 29) / 30 ∧
          (downloadAssets env world versionData assetsDir files).batches =
            (List.range (j + 1)).map (fun k => (objects.drop (30 * k)).take 30))) := by
  rw [downloadAssets_eq_loop env world versionData assetsDir files objectsDir files1 objects hidx]
  have h := assetLoop_trace env world objectsDir objects objects.length 0
    { progress := [], batches := [], files := files1, error := none } (by omega) rfl
  simpa only [downloadAssetsLoop, List.nil_append, Nat.sub_zero, Nat.zero_add] using h

theorem downloadAssets_ok (env : Env) (world : World) (versionData : Manifest)
    (assetsDir : String) (files : List String) (objectsDir : String) (files1 : List String)
    (objects : List (String × AssetObject))
    (hidx : loadAssetIndex env world versionData assetsDir files =
      Except.ok (objectsDir, files1, objects))
    (hall : ∀ url, (world.get url).ok = true) :
    (downloadAssets env world versionData assetsDir files).error = none := by
  rw [downloadAssets_eq_loop env world versionData assetsDir files objectsDir files1 objects hidx]
  exact assetLoop_ok env world objectsDir objects hall _ _ _ rfl

/-- C13 (as stated, refuted): on an index of 31 objects whose first transfer
fails, the exception of the first batch ends `downloadAssets`: the progress
callback is never invoked, where the claim has `ceil(31 / 30) = 2` calls and a
final value `1.0`. -/
theorem downloadAssets_failed_transfer_no_report :
    loadAssetIndex emptyEnv lossyWorld installedManifest "/mc/assets" [] =
        Except.ok ("/mc/assets/objects", ["/mc/assets/indexes/5.json"], manyAssets) ∧
      manyAssets.length = 31 ∧ (31 + 29) / 30 = 2 ∧
      (downloadAssets emptyEnv lossyWorld installedManifest "/mc/assets" []).progress = [] ∧
      (downloadAssets emptyEnv lossyWorld installedManifest "/mc/assets" []).error =
        some (LaunchError.requestFailed "https://resources.download.minecraft.net/aa/aa") :=
  ⟨rfl, rfl, rfl, rfl, rfl⟩

/-- C13 (amended): when `downloadAssets` loads an index with `N` objects, its
progress callback is invoked `j` times with `j` at most `ceil(N / 30)` (the
number `c` with `N ≤ 30 c < N + 30`, zero for `N = 0`), and the `k`-th value
is the double `min(30 k, N) / N`. The count is `ceil(N / 30)` exactly when the
run ends without an exception, as it does when no transfer fails; then for
`N > 0` the last value is exactly `1.0`. -/
theorem downloadAssets_progress (env : Env) (world : World) (versionData : Manifest)
    (assetsDir : String) (files : List String) (objectsDir : String) (files1 : List String)
    (objects : List (String × AssetObject))
    (hidx : loadAssetIndex env world versionData assetsDir files =
      Except.ok (objectsDir, files1, objects)) :
    (downloadAssets env world versionData assetsDir files).progress =
        (List.range (downloadAssets env world versionData assetsDir files).progress.length).map
          (fun k => fdiv (min (30 * (k + 1)) objects.length) objects.length) ∧
      (downloadAssets env world versionData assetsDir files).progress.length ≤
        (objects.length + 29) / 30 ∧
      ((downloadAssets env world versionData assetsDir files).error = none ↔
        (downloadAssets env world versionData assetsDir files).progress.length =
          (objects.length + 29) / 30) ∧
      ((∀ url, (world.get url).ok = true) →
        (downloadAssets env world versionData assetsDir files).error = none) ∧
      (objects.length ≤ 30 * ((objects.length + 29) / 30) ∧
        30 * ((objects.length + 29) / 30) < objects.length + 30) ∧
      (objects.length = 0 →
        (downloadAssets env world versionData assetsDir files).progress = []) ∧
      (0 < objects.length →
        (downloadAssets env world versionData assetsDir files).error = none →
        (downloadAssets env world versionData assetsDir files).progress.getLast? =
          some Dbl.one) := by
  obtain ⟨j, hp, hcase⟩ := downloadAssets_trace env world versionData assetsDir files
    objectsDir files1 objects hidx
  have hlen : (downloadAssets env world versionData assetsDir files).progress.length = j := by
    rw [hp, List.length_map, List.length_range]
  have hjle : j ≤ (objects.length + 29) / 30 := by
    rcases hcase with ⟨_, hj, _⟩ | ⟨_, hj, _⟩ <;> omega
  have hiff : (downloadAssets env world versionData assetsDir files).error = none ↔
      j = (objects.length + 29) / 30 := by
    rcases hcase with ⟨he, hj, _⟩ | ⟨he, hj, _⟩
    · exact ⟨fun _ => hj, fun _ => he⟩
    · exact ⟨fun h => absurd h he, fun h => by omega⟩
  refine ⟨?_, ?_, ?_, ?_, ⟨by omega, by omega⟩, ?_, ?_⟩
  · rw [hlen]; exact hp
  · rw [hlen]; exact hjle
  · rw [hlen]; exact hiff
  · exact downloadAssets_ok env world versionData assetsDir files objectsDir files1 objects hidx
  · intro h0
    have hj0 : j = 0 := by omega
    rw [hp, hj0]
    rfl
  · intro hpos hok
    have hj := hiff.mp hok
    rw [hp, hj, List.getLast?_map, List.getLast?_range]
    have hc : (objects.length + 29) / 30 ≠ 0 := by omega
    simp only [hc, if_false, Option.map_some']
    have hmin : min (30 * ((objects.length + 29) / 30 - 1 + 1)) objects.length =
        objects.length := by
      apply Nat.min_eq_right
      omega
    rw [hmin, fdiv_self _ hpos]

set_option maxRecDepth 20000 in
/-- C13 (amended) at an index of 31 objects, none of them on disk, on a host
whose every transfer succeeds: two reports, `30 / 31` and `1.0`. -/
theorem downloadAssets_progress_witness :
    loadAssetIndex emptyEnv bulkWorld installedManifest "/mc/assets" [] =
        Except.ok ("/mc/assets/objects", ["/mc/assets/indexes/5.json"], manyAssets) ∧
      (∀ url, (bulkWorld.get url).ok = true) ∧
      (downloadAssets emptyEnv bulkWorld installedManifest "/mc/assets" []).progress =
        [fdiv 30 31, Dbl.one] ∧
      (downloadAssets emptyEnv bulkWorld installedManifest "/mc/assets" []).error = none ∧
      (downloadAssets emptyEnv bulkWorld installedManifest "/mc/assets" []).progress.getLast? =
        some Dbl.one :=
  have hall : ∀ url, (bulkWorld.get url).ok = true := fun _ => rfl
  have h := downloadAssets_progress emptyEnv bulkWorld installedManifest "/mc/assets" []
    "/mc/assets/objects" ["/mc/assets/indexes/5.json"] manyAssets rfl
  ⟨rfl, hall, by decide, h.2.2.2.1 hall, h.2.2.2.2.2.2 (by decide) (h.2.2.2.1 hall)⟩

/-- C14 (as stated, refuted): on an index of 31 objects whose first transfer
fails, `downloadAssets` starts the first batch of 30 and no other: the last
object of the index belongs to no batch. -/
theorem downloadAssets_failed_transfer_drops_objects :
    manyAssets.length = 31 ∧
      (downloadAssets emptyEnv lossyWorld installedManifest "/mc/assets" []).batches =
        [manyAssets.take 30] ∧
      ∃ o, manyAssets.get? 30 = some o ∧
        ∀ b ∈ (downloadAssets emptyEnv lossyWorld installedManifest "/mc/assets" []).batches,
          o ∉ b :=
  ⟨rfl, rfl, _, rfl, by decide⟩

/-- C14 (amended): the batches `downloadAssets` starts on a loaded index of `N`
objects are the first `b` consecutive slices `objects[30 k, 30 k + 30)`, with
`b` at most `ceil(N / 30)`: every batch has at most 30 objects, every batch but
the last has exactly 30, and put end to end the batches are the first `30 b`
objects in order. A run that ends without an exception, as every run without
a failed transfer does, starts all `ceil(N / 30)` batches, so the batches put
end to end are the object list; a run ended by a failed transfer has started
one batch more than it has reported. -/
theorem downloadAssets_batches (env : Env) (world : World) (versionData : Manifest)
    (assetsDir : String) (files : List String) (objectsDir : String) (files1 : List String)
    (objects : List (String × AssetObject))
    (hidx : loadAssetIndex env world versionData assetsDir files =
      Except.ok (objectsDir, files1, objects)) :
    (downloadAssets env world versionData assetsDir files).batches =
        (List.range (downloadAssets env world versionData assetsDir files).batches.length).map
          (fun k => (objects.drop (30 * k)).take 30) ∧
      (downloadAssets env world versionData assetsDir files).batches.length ≤
        (objects.length + 29) / 30 ∧
      (∀ b ∈ (downloadAssets env world versionData assetsDir files).batches, b.length ≤ 30) ∧
      (∀ k b, k + 1 < (downloadAssets env world versionData assetsDir files).batches.length →
        (downloadAssets env world versionData assetsDir files).batches.get? k = some b →
        b.length = 30) ∧
      (downloadAssets env world versionData assetsDir files).batches.flatten =
        objects.take (30 * (downloadAssets env world versionData assetsDir files).batches.length) ∧
      ((downloadAssets env world versionData assetsDir files).error = none →
        (downloadAssets env world versionData assetsDir files).batches.length =
            (objects.length + 29) / 30 ∧
          (downloadAssets env world versionData assetsDir files).batches.flatten = objects) ∧
      ((downloadAssets env world versionData assetsDir files).error ≠ none →
        (downloadAssets env world versionData assetsDir files).batches.length =
          (downloadAssets env world versionData assetsDir files).progress.length + 1) ∧
      ((∀ url, (world.get url).ok = true) →
        (downloadAssets env world versionData assetsDir files).error = none) := by
  obtain ⟨j, hp, hcase⟩ := downloadAssets_trace env world versionData assetsDir files
    objectsDir files1 objects hidx
  have hplen : (downloadAssets env world versionData assetsDir files).progress.length = j := by
    rw [hp, List.length_map, List.length_range]
  obtain ⟨b, hb, hble, hok, hfail⟩ : ∃ b,
      (downloadAssets env world versionData assetsDir files).batches =
        (List.range b).map (fun k => (objects.drop (30 * k)).take 30) ∧
      b ≤ (objects.length + 29) / 30 ∧
      ((downloadAssets env world versionData assetsDir files).error = none →
        b = (objects.length + 29) / 30) ∧
      ((downloadAssets env world versionData assetsDir files).error ≠ none → b = j + 1) := by
    rcases hcase with ⟨he, hj, hbs⟩ | ⟨he, hj, hbs⟩
    · exact ⟨j, hbs, by omega, fun _ => hj, fun h => absurd he h⟩
    · exact ⟨j + 1, hbs, by omega, fun h => absurd h he, fun _ => rfl⟩
  have hlen : (downloadAssets env world versionData assetsDir files).batches.length = b := by
    rw [hb, List.length_map, List.length_range]
  have hflat : (downloadAssets env world versionData assetsDir files).batches.flatten =
      objects.take (30 * b) := by
    rw [hb, slices_flatten]
  refine ⟨?_, ?_, ?_, ?_, ?_, ?_, ?_, ?_⟩
  · rw [hlen]; exact hb
  · rw [hlen]; exact hble
  · intro s hs
    rw [hb] at hs
    obtain ⟨k, _, hk⟩ := List.mem_map.mp hs
    rw [← hk, List.length_take]
    exact Nat.min_le_left _ _
  · intro k s hk hget
    rw [hlen] at hk
    rw [hb] at hget
    have hk2 : k < b := by omega
    rw [List.get?_eq_getElem?, List.getElem?_map, List.getElem?_range hk2] at hget
    simp only [Option.map_some', Option.some.injEq] at hget
    rw [← hget, List.length_take, List.length_drop]
    omega
  · rw [hlen]; exact hflat
  · intro he
    refine ⟨by rw [hlen]; exact hok he, ?_⟩
    rw [hflat, hok he]
    exact List.take_of_length_le (by omega)
  · intro he
    rw [hlen, hplen]
    exact hfail he
  · exact downloadAssets_ok env world versionData assetsDir files objectsDir files1 objects hidx

/-- C14 (amended) at an index of 31 objects on a host whose every transfer
succeeds: a batch of the first 30 objects, then a batch of the last one. -/
theorem downloadAssets_batches_witness :
    loadAssetIndex emptyEnv bulkWorld installedManifest "/mc/assets" [] =
        Except.ok ("/mc/assets/objects", ["/mc/assets/indexes/5.json"], manyAssets) ∧
      (downloadAssets emptyEnv bulkWorld installedManifest "/mc/assets" []).batches =
        [manyAssets.take 30, manyAssets.drop 30] ∧
      (downloadAssets emptyEnv bulkWorld installedManifest "/mc/assets" []).batches.map
        List.length = [30, 1] ∧
      (downloadAssets emptyEnv bulkWorld installedManifest "/mc/assets" []).batches.length =
        (manyAssets.length + 29) / 30 ∧
      (downloadAssets emptyEnv bulkWorld installedManifest "/mc/assets" []).batches.flatten =
        manyAssets :=
  have h := downloadAssets_batches emptyEnv bulkWorld installedManifest "/mc/assets" []
    "/mc/assets/objects" ["/mc/assets/indexes/5.json"] manyAssets rfl
  have hok := h.2.2.2.2.2.2.2 (fun _ => rfl)
  ⟨rfl, rfl, rfl, (h.2.2.2.2.2.1 hok).1, (h.2.2.2.2.2.1 hok).2⟩

/-! ## Theorems: downloadVersion, downloadLibraries, installFabric -/

/-- C15 (every completed run): the last report of `downloadVersion` is
`updateProgress('Готово!', 1.0)` made after `totalProgress = 1.0`, so the
value passed to the callback is `1.0 + 1.0 = 2.0`, outside `[0, 1]`. -/
theorem downloadVersion_last_report (env : Env) (world : World) (files : List String)
    (version : CatalogEntry)
    (hok : (downloadVersion env world files version).error = none) :
    (downloadVersion env world files version).reports.getLast? =
        some { status := "Готово!", progress := { mant := 2, scale := 0 } } ∧
      Dbl.one < ({ mant := 2, scale := 0 } : Dbl) := by
  have h2 : updateProgress Dbl.one "Готово!" Dbl.one =
      { status := "Готово!", progress := { mant := 2, scale := 0 } } := by
    simp only [updateProgress, progress_literals.2.2.2.2.2]
  refine ⟨?_, by decide⟩
  unfold downloadVersion at hok ⊢
  split
  · rename_i h; simp [h] at hok
  · rename_i versionData h
    simp only [h] at hok ⊢
    split
    · rename_i h1; simp [h1] at hok
    · rename_i clientUrl h1
      simp only [h1] at hok ⊢
      split
      · rename_i e h2'; simp [h2'] at hok
      · rename_i h2'
        simp only [h2'] at hok ⊢
        split
        · rename_i h3; simp [h3] at hok
        · rename_i allLibraries h3
          simp only [h3] at hok ⊢
          split
          · rename_i e h4; simp [h4] at hok
          · rw [List.getLast?_append_of_ne_nil _ (by simp), h2]
            rfl

set_option maxRecDepth 20000 in
/-- C15 at a game directory that already holds every file: no request is
made, and the values reported are `0`, `0.15`, `0.7000000000000001`, `0.7`,
`1.0` and finally `2.0`. -/
theorem downloadVersion_last_report_witness :
    (downloadVersion installedEnv offlineWorld [] (localEntry "1.20.1")).error = none ∧
      (downloadVersion installedEnv offlineWorld [] (localEntry "1.20.1")).reports.getLast? =
        some { status := "Готово!", progress := { mant := 2, scale := 0 } } ∧
      Dbl.one < ({ mant := 2, scale := 0 } : Dbl) :=
  ⟨rfl, downloadVersion_last_report installedEnv offlineWorld [] (localEntry "1.20.1") rfl⟩

set_option maxRecDepth 20000 in
/-- C16 (the code at a failing input): in a re-run over a complete game
directory the libraries phase reports the sub-progress `1/1 = 1.0` and the
assets phase `1/1 = 1.0`, both inside `[0, 1]` and non-decreasing; the values
passed to the callback are `0`, `0.15`, `0.15 + 1.0 * 0.55 =
0.7000000000000001`, `0.70 + 0 = 0.7`, `1.0`, `2.0`: the fourth is below
the third. -/
theorem downloadVersion_progress_drops :
    (downloadLibraries installedEnv offlineWorld "/mc/libraries" "/mc/versions/1.20.1/natives"
        ["/mc/versions/1.20.1/1.20.1.json"]
        ((installedManifest.libraries.getD []).filter checkLibraryRules)).progress = [Dbl.one] ∧
      (downloadAssets installedEnv offlineWorld installedManifest "/mc/assets"
        ["/mc/versions/1.20.1/1.20.1.json"]).progress = [Dbl.one] ∧
      (downloadVersion installedEnv offlineWorld [] (localEntry "1.20.1")).reports.map
          (fun r => r.progress) =
        [{ mant := 0, scale := 0 },
         { mant := 5404319552844595, scale := 55 },
         { mant := 6305039478318695, scale := 53 },
         { mant := 3152519739159347, scale := 52 },
         { mant := 1, scale := 0 },
         { mant := 2, scale := 0 }] ∧
      ({ mant := 3152519739159347, scale := 52 } : Dbl) <
        { mant := 6305039478318695, scale := 53 } ∧
      nonDecreasing ((downloadVersion installedEnv offlineWorld []
        (localEntry "1.20.1")).reports.map (fun r => r.progress)) = false := by
  refine ⟨?_, ?_, ?_, ?_, ?_⟩ <;> decide

theorem foldl_librariesStep_processed (env : Env) (world : World)
    (librariesDir nativesDir : String) (total : Nat) (libraries : List Library) :
    ∀ run : LibrariesRun,
      (libraries.foldl (librariesStep env world librariesDir nativesDir total) run).processed =
        run.processed + libraries.length := by
  induction libraries with
  | nil => intro run; simp
  | cons lib rest ih =>
    intro run
    rw [List.foldl_cons, ih]
    have hstep : (librariesStep env world librariesDir nativesDir total run lib).processed =
        run.processed + 1 := by
      unfold librariesStep
      simp only
      split
      · split <;> rfl
      · rfl
    rw [hstep, List.length_cons]
    omega

set_option maxRecDepth 20000 in
/-- C17 (the code at a failing input): `downloadLibraries` never throws and
passes through every library, but `completed++` sits inside the `try` block
after the downloads: with two libraries of which the first fails to download,
the counter ends at 1 and the only value reported is `1/2 = 0.5`, not
`2/2 = 1`. -/
theorem downloadLibraries_failed_library_not_counted :
    (∀ (env : Env) (world : World) (librariesDir nativesDir : String) (files : List String)
        (libraries : List Library),
        (downloadLibraries env world librariesDir nativesDir files libraries).processed =
          libraries.length) ∧
      (downloadLibraries emptyEnv flakyWorld "/mc/libraries" "/mc/versions/1.20.1/natives" []
        twoLibraries).processed = 2 ∧
      (downloadLibraries emptyEnv flakyWorld "/mc/libraries" "/mc/versions/1.20.1/natives" []
        twoLibraries).completed = 1 ∧
      (downloadLibraries emptyEnv flakyWorld "/mc/libraries" "/mc/versions/1.20.1/natives" []
        twoLibraries).progress = [{ mant := 1, scale := 1 }] ∧
      (downloadLibraries emptyEnv flakyWorld "/mc/libraries" "/mc/versions/1.20.1/natives" []
        twoLibraries).files = ["/mc/libraries/com/mojang/logging/1.1.1/logging-1.1.1.jar"] := by
  refine ⟨?_, ?_, ?_, ?_, ?_⟩
  · intro env world librariesDir nativesDir files libraries
    unfold downloadLibraries
    rw [foldl_librariesStep_processed]
    simp
  all_goals decide

set_option maxRecDepth 20000 in
/-- C18 (the code at a failing input): installing Fabric for `1.20.1` into an
empty game directory, every request succeeding. The base download ends with
the report `2.0`, which `installFabric` passes on as `0.3 + 2.0 * 0.4 = 1.1`;
the next report is `0.7`. The values are `0.1`, `0.2`, `0.3`, `0.3`, `0.36`,
`0.5800000000000001`, `0.58`, `0.7`, `1.1`, `0.7`, `1.0`. -/
theorem installFabric_progress_exceeds_one :
    (installFabric emptyEnv onlineWorld 2 "1.20.1").map
        (fun run => (run.error.isNone, run.reports.map (fun r => r.progress))) =
      some (true,
        [{ mant := 3602879701896397, scale := 55 },
         { mant := 3602879701896397, scale := 54 },
         { mant := 5404319552844595, scale := 54 },
         { mant := 5404319552844595, scale := 54 },
         { mant := 3242591731706757, scale := 53 },
         { mant := 326510972984361, scale := 49 },
         { mant := 5224175567749775, scale := 53 },
         { mant := 3152519739159347, scale := 52 },
         { mant := 2476979795053773, scale := 51 },
         { mant := 3152519739159347, scale := 52 },
         { mant := 1, scale := 0 }]) ∧
      Dbl.one < ({ mant := 2476979795053773, scale := 51 } : Dbl) ∧
      ({ mant := 3152519739159347, scale := 52 } : Dbl) <
        { mant := 2476979795053773, scale := 51 } := by
  refine ⟨?_, ?_, ?_⟩ <;> decide

/-! ## Theorems: generateOfflineUUID -/

set_option maxRecDepth 20000 in
/-- C21 (the code at a failing input): for the default username `Player` the
hash, kept by `& 0xFFFFFFFF` as a signed 32-bit integer, is `-108083017`; its
`toString(16)` starts with a minus sign, and the result has a hyphen inside
its last group, so it is not UUID-shaped. For `Alex` the hash is positive and
the result is UUID-shaped. Every result shown has 36 characters. -/
theorem generateOfflineUUID_negative_hash :
    (utf16Units "OfflinePlayer:Player").foldl hashStep 0 = -108083017 ∧
      generateOfflineUUID "Player" = "00000000-0000-0000-0000-0000-6713749" ∧
      uuidShaped (generateOfflineUUID "Player") = false ∧
      (generateOfflineUUID "Player").length = 36 ∧
      generateOfflineUUID "Alex" = "00000000-0000-0000-0000-0000413b6574" ∧
      uuidShaped (generateOfflineUUID "Alex") = true := by
  refine ⟨?_, ?_, ?_, ?_, ?_, ?_⟩ <;> decide

/-! ## Theorems: isVersionInstalled -/

theorem isVersionInstalled_succ (env : Env) (fuel : Nat) (versionId : String) :
    isVersionInstalled env (fuel + 1) versionId =
      if env.existsSync (env.join [env.join [env.gameDir, "versions", versionId],
          versionId ++ ".json"]) then
        if strIncludes versionId "fabric-loader" then
          match env.readManifest (env.join [env.join [env.gameDir, "versions", versionId],
              versionId ++ ".json"]) with
          | none => some false
          | some versionData =>
            if truthyStr versionData.inheritsFrom then
              isVersionInstalled env fuel (versionData.inheritsFrom.getD "")
            else some true
        else if env.existsSync (env.join [env.join [env.gameDir, "versions", versionId],
            versionId ++ ".jar"]) then some true
        else some false
      else some false := by
  rw [isVersionInstalled]

/-- For an id that does not contain `fabric-loader`, `isVersionInstalled`
answers at once: true exactly when the manifest and the jar exist. -/
theorem isVersionInstalled_plain (env : Env) (fuel : Nat) (versionId : String)
    (h : strIncludes versionId "fabric-loader" = false) :
    isVersionInstalled env (fuel + 1) versionId =
      some (env.existsSync (env.join [env.join [env.gameDir, "versions", versionId],
          versionId ++ ".json"]) &&
        env.existsSync (env.join [env.join [env.gameDir, "versions", versionId],
          versionId ++ ".jar"])) := by
  rw [isVersionInstalled_succ, h]
  cases env.existsSync (env.join [env.join [env.gameDir, "versions", versionId],
      versionId ++ ".json"]) <;>
    cases env.existsSync (env.join [env.join [env.gameDir, "versions", versionId],
      versionId ++ ".jar"]) <;> simp

set_option maxRecDepth 20000 in
/-- C22 (the code at a failing input): when the manifest of the overlay
`fabric-loader-0.15.0-1.20.1` names the overlay itself in `inheritsFrom`,
every call of `isVersionInstalled` on it makes the same call again: no depth
of recursion, however large, yields a boolean. -/
theorem isVersionInstalled_self_overlay_never_returns :
    truthyStr selfOverlay.inheritsFrom = true ∧
      selfOverlay.inheritsFrom = some "fabric-loader-0.15.0-1.20.1" ∧
      ∀ fuel : Nat, isVersionInstalled loopEnv fuel "fabric-loader-0.15.0-1.20.1" = none := by
  refine ⟨by decide, rfl, ?_⟩
  intro fuel
  induction fuel with
  | zero => rfl
  | succ n ih =>
    have hexists : loopEnv.existsSync (loopEnv.join [loopEnv.join [loopEnv.gameDir, "versions",
        "fabric-loader-0.15.0-1.20.1"], "fabric-loader-0.15.0-1.20.1" ++ ".json"]) = true := by
      decide
    have hinc : strIncludes "fabric-loader-0.15.0-1.20.1" "fabric-loader" = true := by decide
    have hread : loopEnv.readManifest (loopEnv.join [loopEnv.join [loopEnv.gameDir, "versions",
        "fabric-loader-0.15.0-1.20.1"], "fabric-loader-0.15.0-1.20.1" ++ ".json"]) =
        some selfOverlay := rfl
    have htruthy : truthyStr selfOverlay.inheritsFrom = true := by decide
    have hinh : selfOverlay.inheritsFrom.getD "" = "fabric-loader-0.15.0-1.20.1" := rfl
    rw [isVersionInstalled_succ, hexists, hinc, hread]
    simp only [if_true, htruthy, hinh]
    exact ih

/-! ## Theorems: idempotence of resolveVersion -/

/-- C23: when `resolveVersion` succeeds its result has no usable
`inheritsFrom` (none at all when the input was an overlay), so resolving the
result again, on any file system, returns it unchanged. -/
theorem resolveVersion_idempotent (env : Env) (m r : Manifest)
    (h : resolveVersion env m = Except.ok r) :
    truthyStr r.inheritsFrom = false ∧
      (truthyStr m.inheritsFrom = true → r.inheritsFrom = none) ∧
      resolveVersion env r = Except.ok r ∧
      ∀ env2 : Env, resolveVersion env2 r = Except.ok r := by
  have hfalsy : truthyStr r.inheritsFrom = false ∧
      (truthyStr m.inheritsFrom = true → r.inheritsFrom = none) := by
    unfold resolveVersion at h
    by_cases ht : truthyStr m.inheritsFrom = true
    · simp only [ht, if_true] at h
      split at h
      · cases h
      · have hr := Except.ok.inj h
        rw [← hr]
        exact ⟨rfl, fun _ => rfl⟩
    · simp only [ht] at h
      have hr := Except.ok.inj h
      rw [← hr]
      exact ⟨by simpa using ht, fun hc => absurd hc ht⟩
  have hagain : ∀ env2 : Env, resolveVersion env2 r = Except.ok r := by
    intro env2
    unfold resolveVersion
    simp [hfalsy.1]
  exact ⟨hfalsy.1, hfalsy.2, hagain env, hagain⟩

/-- C23 at the overlay `fabric-loader-0.15.0-1.20.1` over an installed
`1.20.1`. -/
theorem resolveVersion_idempotent_witness :
    resolveVersion overlayEnv overlayManifest = Except.ok resolvedOverlay ∧
      resolveVersion overlayEnv resolvedOverlay = Except.ok resolvedOverlay :=
  ⟨rfl, (resolveVersion_idempotent overlayEnv overlayManifest resolvedOverlay rfl).2.2.1⟩

/-! ## Theorems: libraries excluded by their rules -/

/-- A rule list without an applicable rule leaves `allowed` at false. -/
theorem checkLibraryRules_of_none_applicable (library : Library) (rules : List Rule)
    (hrules : library.rules = some rules) (hnone : ∀ r ∈ rules, r.applicable = false) :
    checkLibraryRules library = false := by
  simp only [checkLibraryRules, hrules]
  rw [foldl_ruleStep, (lastWhere_eq_none Rule.applicable rules).mpr hnone]

theorem batchTransfers_congr (env : Env) (world : World) (f : String → Option Manifest)
    (g : String → Option Manifest) (objectsDir : String) (files : List String)
    (batch : List (String × AssetObject)) :
    batchTransfers { env with readManifest := f } { world with fetchVersion := g } objectsDir
        files batch =
      batchTransfers env world objectsDir files batch := rfl

theorem assetLoop_congr (env : Env) (world : World) (f : String → Option Manifest)
    (g : String → Option Manifest) (objectsDir : String)
    (objects : List (String × AssetObject)) :
    ∀ (fuel i : Nat) (run : AssetsRun),
      assetLoop { env with readManifest := f } { world with fetchVersion := g } objectsDir
          objects fuel i run =
        assetLoop env world objectsDir objects fuel i run := by
  intro fuel
  induction fuel with
  | zero => intro i run; rfl
  | succ fuel ih =>
    intro i run
    rw [assetLoop_succ, assetLoop_succ]
    simp only [batchTransfers_congr, ih]

/-- The asset phase reads neither a manifest file nor a version manifest of
the network, and of `versionData` only `assetIndex`. -/
theorem downloadAssets_congr (env : Env) (world : World) (f : String → Option Manifest)
    (g : String → Option Manifest) (versionData : Manifest) (libraries : Option (List Library))
    (assetsDir : String) (files : List String) :
    downloadAssets { env with readManifest := f } { world with fetchVersion := g }
        { versionData with libraries := libraries } assetsDir files =
      downloadAssets env world versionData assetsDir files := by
  have hidx : loadAssetIndex { env with readManifest := f } { world with fetchVersion := g }
      { versionData with libraries := libraries } assetsDir files =
      loadAssetIndex env world versionData assetsDir files := rfl
  unfold downloadAssets
  rw [hidx]
  cases loadAssetIndex env world versionData assetsDir files with
  | error e => rfl
  | ok r =>
    obtain ⟨objectsDir, files1, objects⟩ := r
    simp only [downloadAssetsLoop]
    exact assetLoop_congr env world f g objectsDir objects _ _ _

theorem downloadLibraries_congr (env : Env) (world : World) (f : String → Option Manifest)
    (g : String → Option Manifest) (librariesDir nativesDir : String) (files : List String)
    (libraries : List Library) :
    downloadLibraries { env with readManifest := f } { world with fetchVersion := g }
        librariesDir nativesDir files libraries =
      downloadLibraries env world librariesDir nativesDir files libraries := rfl

/-- The run of `downloadVersion` does not change when a library that
`checkLibraryRules` refuses is taken out of the manifest. -/
theorem downloadVersion_without_refused (env : Env) (world : World) (files : List String)
    (version : CatalogEntry) (versionData : Manifest) (library : Library)
    (pre post : List Library)
    (hdata : getVersionData env world version = some versionData)
    (hlibs : versionData.libraries = some (pre ++ library :: post))
    (hfalse : checkLibraryRules library = false) :
    downloadVersion env world files version =
      downloadVersion
        { env with
          readManifest := fun _ => some { versionData with libraries := some (pre ++ post) } }
        { world with
          fetchVersion := fun _ => some { versionData with libraries := some (pre ++ post) } }
        files version := by
  have hdata2 : getVersionData
      { env with
        readManifest := fun _ => some { versionData with libraries := some (pre ++ post) } }
      { world with
        fetchVersion := fun _ => some { versionData with libraries := some (pre ++ post) } }
      version = some { versionData with libraries := some (pre ++ post) } := by
    unfold getVersionData
    simp only
    split <;> rfl
  have hfilter : (pre ++ library :: post).filter checkLibraryRules =
      (pre ++ post).filter checkLibraryRules := by
    simp [List.filter_append, List.filter_cons, hfalse]
  unfold downloadVersion
  rw [hdata, hdata2]
  simp only [hlibs, hfilter, downloadAssets_congr, downloadLibraries_congr]
  rfl

/-- C24 (as stated, refuted): `installFabric` hands the libraries of the Fabric
profile to `downloadLibraries` without evaluating their rules. With `1.20.1`
installed and a profile that lists a library allowed on osx only and a library
with an empty rules list, both refused by `checkLibraryRules`, the run ends
without an error and has downloaded both. -/
theorem installFabric_downloads_refused_libraries :
    checkLibraryRules macOnlyLibrary = false ∧ checkLibraryRules emptyRulesLibrary = false ∧
      (installFabric installedEnv rulesWorld 2 "1.20.1").map (fun run => run.files) =
        some ["/mc/libraries/net/fabricmc/intermediary/1.20.1/intermediary-1.20.1.jar",
          "/mc/libraries/ca/weblite/java-objc-bridge/1.1/java-objc-bridge-1.1.jar"] ∧
      (installFabric installedEnv rulesWorld 2 "1.20.1").map (fun run => run.error.isNone) =
        some true :=
  ⟨by decide, by decide, rfl, rfl⟩

/-- C24 (amended): a library whose `rules` list is present and empty, or holds
only rules whose `os` names another platform than windows, is refused by
`checkLibraryRules`, whereas a library without `rules` passes. The refused
library is excluded from the download of `downloadVersion`, whose run is the
one it makes for the manifest without that library, and from the classpath:
`buildClasspath` returns what it returns for the manifest without it. (The
library download of `installFabric` does not evaluate rules.) -/
theorem checkLibraryRules_excludes (env : Env) (world : World) (files : List String)
    (version : CatalogEntry) (versionData : Manifest) (versionDir : String)
    (library : Library) (rules : List Rule) (pre post : List Library)
    (hrules : library.rules = some rules)
    (hother : ∀ r ∈ rules, ∃ os, r.os = some os ∧ os.name ≠ some "windows")
    (hdata : getVersionData env world version = some versionData)
    (hlibs : versionData.libraries = some (pre ++ library :: post)) :
    checkLibraryRules library = false ∧
      (∀ other : Library, other.rules = none → checkLibraryRules other = true) ∧
      downloadVersion env world files version =
        downloadVersion
          { env with
            readManifest := fun _ => some { versionData with libraries := some (pre ++ post) } }
          { world with
            fetchVersion := fun _ => some { versionData with libraries := some (pre ++ post) } }
          files version ∧
      libraryEntry env library = none ∧
      libraryPaths env (pre ++ library :: post) = libraryPaths env (pre ++ post) ∧
      buildClasspath env versionData versionDir =
        buildClasspath env { versionData with libraries := some (pre ++ post) } versionDir := by
  have hnone : ∀ r ∈ rules, r.applicable = false := by
    intro r hr
    obtain ⟨os, hos, hname⟩ := hother r hr
    simp [Rule.applicable, hos, hname]
  have hfalse := checkLibraryRules_of_none_applicable library rules hrules hnone
  have hentry : libraryEntry env library = none := by
    simp [libraryEntry, hfalse]
  have hpaths : libraryPaths env (pre ++ library :: post) = libraryPaths env (pre ++ post) := by
    rw [libraryPaths_eq, libraryPaths_eq, List.filterMap_append, List.filterMap_append,
      List.filterMap_cons, hentry]
  refine ⟨hfalse, ?_,
    downloadVersion_without_refused env world files version versionData library pre post
      hdata hlibs hfalse,
    hentry, hpaths, ?_⟩
  · intro other hno
    simp [checkLibraryRules, hno]
  · simp only [buildClasspath, classpathEntries, hlibs, hpaths]

/-- C24 (amended) at a manifest of `1.20.1` that lists brigadier, a library
allowed on osx only and a library with an empty rules list, on an empty game
directory: `downloadVersion` downloads brigadier and neither of the other
two. -/
theorem checkLibraryRules_excludes_witness :
    (macOnlyLibrary.rules = some [osRule "allow" "osx"] ∧
      getVersionData emptyEnv rulesWorld (remoteEntry "1.20.1") = some rulesManifest) ∧
      (downloadVersion emptyEnv rulesWorld [] (remoteEntry "1.20.1")).files =
        ["/mc/assets/objects/bd/bdf48ef6",
          "/mc/assets/indexes/5.json",
          "/mc/libraries/com/mojang/brigadier/1.1.8/brigadier-1.1.8.jar",
          "/mc/versions/1.20.1/1.20.1.jar",
          "/mc/versions/1.20.1/1.20.1.json"] ∧
      checkLibraryRules macOnlyLibrary = false ∧
      downloadVersion emptyEnv rulesWorld [] (remoteEntry "1.20.1") =
        downloadVersion
          { emptyEnv with
            readManifest := fun _ => some
              { rulesManifest with
                libraries := some ([artifactLibrary "com.mojang:brigadier:1.1.8"
                  "com/mojang/brigadier/1.1.8/brigadier-1.1.8.jar"] ++ [emptyRulesLibrary]) } }
          { rulesWorld with
            fetchVersion := fun _ => some
              { rulesManifest with
                libraries := some ([artifactLibrary "com.mojang:brigadier:1.1.8"
                  "com/mojang/brigadier/1.1.8/brigadier-1.1.8.jar"] ++ [emptyRulesLibrary]) } }
          [] (remoteEntry "1.20.1") :=
  have h := checkLibraryRules_excludes emptyEnv rulesWorld [] (remoteEntry "1.20.1")
    rulesManifest "/mc/versions/1.20.1" macOnlyLibrary [osRule "allow" "osx"]
    [artifactLibrary "com.mojang:brigadier:1.1.8" "com/mojang/brigadier/1.1.8/brigadier-1.1.8.jar"]
    [emptyRulesLibrary] rfl
    (fun r hr => ⟨{ name := some "osx" }, by
      rw [List.mem_singleton] at hr
      rw [hr]
      exact ⟨rfl, by decide⟩⟩)
    rfl rfl
  ⟨⟨rfl, rfl⟩, rfl, h.1, h.2.2.1⟩

/-! ## Theorems: buildArguments and the structured argument lists -/

/-- C25: two manifests that both have an `arguments.game` array and agree in
every field but `arguments` get the same vector from `buildArguments`, for the
same directory, classpath, account and settings: the entries of
`arguments.game` and `arguments.jvm` are never read. -/
theorem buildArguments_ignores_argument_lists (env : Env) (m1 m2 : Manifest)
    (versionDir classpath : String) (account : Account) (settings : Settings)
    (a1 a2 : List (String × Json)) (g1 g2 : List Json)
    (h1 : m1.arguments = some a1) (hg1 : objGet a1 "game" = some (Json.arr g1))
    (hg2 : objGet a2 "game" = some (Json.arr g2))
    (h2 : m2 = { m1 with arguments := some a2 }) :
    buildArguments env m1 versionDir classpath account settings =
      buildArguments env m2 versionDir classpath account settings := by
  subst h2
  have hs1 : hasStructured m1 = true := by
    simp [hasStructured, h1, hg1, jsonTruthy]
  have hs2 : hasStructured { m1 with arguments := some a2 } = true := by
    simp [hasStructured, hg2, jsonTruthy]
  simp only [buildArguments, jvmArguments, gameArguments, hs1, hs2, if_true,
    structuredArguments, assetIndexName]

/-- C25 at the manifest of `1.20.1` and the same manifest carrying the
arguments merged with the overlay's. -/
theorem buildArguments_ignores_argument_lists_witness :
    buildArguments emptyEnv baseManifest "/mc/versions/1.20.1" "cp" steve defaultSettings =
      buildArguments emptyEnv
        { baseManifest with
          arguments := some (mergeArguments baseManifest.arguments overlayManifest.arguments) }
        "/mc/versions/1.20.1" "cp" steve defaultSettings :=
  buildArguments_ignores_argument_lists emptyEnv baseManifest
    { baseManifest with
      arguments := some (mergeArguments baseManifest.arguments overlayManifest.arguments) }
    "/mc/versions/1.20.1" "cp" steve defaultSettings
    [("game", Json.arr [Json.str "--username"]), ("jvm", Json.arr [])]
    (mergeArguments baseManifest.arguments overlayManifest.arguments)
    [Json.str "--username"] ([Json.str "--username"] ++ []) rfl rfl rfl rfl

end NsLauncher
